import Mathlib

/-!
Shallow embedding of the bincode-core serialization library
(`src/serialize.rs`, `src/deserialize.rs`, `src/size_checker.rs`,
`src/buffer_writer.rs`, `src/config/{int,limit,mod}.rs`).

Bytes are modelled as `Nat` values below 256, byte streams as `List Nat`.
Machine integers are `Nat`/`Int` with explicit `% 2^w` where the source
performs a cast or where wrapping matters.  Fallible operations return
`Except`; Rust panics (`expect`, out-of-bounds indexing) are modelled by
dedicated `panic` constructors of outcome types.
-/

set_option maxRecDepth 8192
set_option maxHeartbeats 1600000

namespace Bincode

/-- Integer encoding strategy from `config/int.rs`: `VarintEncoding` or
`FixintEncoding`. -/
inductive IntEnc where
  | varint
  | fixint
deriving DecidableEq, Repr

/-- Endianness selector from `config/endian` (`LittleEndian`, `BigEndian`;
`NativeEndian` coincides with one of them on any concrete target and is
little-endian on the targets the crate tests on). -/
inductive Endi where
  | little
  | big
deriving DecidableEq, Repr

/-- Trailing-bytes policy markers `RejectTrailing` / `AllowTrailing`
(from `config/trailing`, re-exported in `config/mod.rs`). -/
inductive Trailing where
  | reject
  | allow
deriving DecidableEq, Repr

/-- Size limit from `config/limit.rs`: `Infinite` or `Bounded(k)` with the
remaining budget `k`. -/
inductive Limit where
  | infinite
  | bounded (k : Nat)
deriving DecidableEq, Repr

/-- The static dimensions of an `Options` bundle (`config/mod.rs`): the
integer encoding, the endianness and the trailing policy.  The mutable
limit state travels separately, as it does through `InternalOptions::limit`. -/
structure Cfg where
  intEnc : IntEnc
  endian : Endi
  trailing : Trailing
deriving DecidableEq, Repr

/-- The `DefaultOptions` preset: varint, little-endian, reject-trailing
(the limit, `Infinite` by default, is passed separately). -/
def defaultCfg : Cfg := ⟨IntEnc.varint, Endi.little, Trailing.reject⟩

/-- Error enum `LimitError` from `config/limit.rs`. -/
inductive LimitError where
  | limitReached
deriving DecidableEq, Repr

/-- Error type of the byte-slice reader (`SliceReadError` in
`traits/core_read.rs`), restricted to the end-of-input case used by the
integer/byte paths. -/
inductive ReadError where
  | endOfInput
deriving DecidableEq, Repr

/-- Error enum `DeserializeError` from `deserialize.rs`.  `panicCustom`
models the `Error::custom` path, which the crate implements as a panic. -/
inductive DeError where
  | read (e : ReadError)
  | invalidBoolValue (b : Nat)
  | invalidCharEncoding
  | utf8
  | invalidOptionValue (b : Nat)
  | limitError (e : LimitError)
  | invalidCast
  | invalidValueRange
  | extensionPoint
  | panicCustom
deriving DecidableEq, Repr

/-- Error enum `SerializeError` from `serialize.rs`, for a writer that
cannot fail (the inner `Write` case never occurs). -/
inductive SerError where
  | sequenceMustHaveLength
deriving DecidableEq, Repr

/-! ### Size limit meter (`config/limit.rs`) -/

/-- Translation of `<Bounded as SizeLimit>::add`: the method mutates the
remaining budget in place, so it is modelled as a state transformer that
returns the error (if any) together with the new budget.  On failure the
budget field is untouched. -/
def boundedAdd (k n : Nat) : Option LimitError × Nat :=
  if k ≥ n then (none, k - n) else (some LimitError.limitReached, k)

/-- `SizeLimit::add` over both limit variants: `Infinite::add` always
succeeds, `Bounded::add` is `boundedAdd`. -/
def Limit.add (L : Limit) (n : Nat) : Except LimitError Limit :=
  match L with
  | Limit.infinite => Except.ok Limit.infinite
  | Limit.bounded k =>
    match boundedAdd k n with
    | (none, k') => Except.ok (Limit.bounded k')
    | (some e, _) => Except.error e

/-! ### Byte-order primitives (the `byteorder` routines used by
`serialize_literal_*` / `deserialize_literal_*`) -/

/-- Little-endian byte decomposition of `n` into `k` bytes (the value is
implicitly truncated to `2^(8*k)`, as the `as uN` casts in the source do). -/
def toBytesLE : Nat → Nat → List Nat
  | _, 0 => []
  | n, k + 1 => n % 256 :: toBytesLE (n / 256) k

/-- Little-endian recomposition of a byte list. -/
def fromBytesLE : List Nat → Nat
  | [] => 0
  | b :: bs => b + 256 * fromBytesLE bs

/-- `byteorder::ByteOrder::write_uXX` for a `k`-byte integer under
endianness `e`. -/
def writeLit (e : Endi) (k n : Nat) : List Nat :=
  match e with
  | Endi.little => toBytesLE n k
  | Endi.big => (toBytesLE n k).reverse

/-- `byteorder::ByteOrder::read_uXX` on a byte slice under endianness `e`. -/
def readLit (e : Endi) (bs : List Nat) : Nat :=
  match e with
  | Endi.little => fromBytesLE bs
  | Endi.big => fromBytesLE bs.reverse

/-! ### Zigzag transform (`VarintEncoding::zigzag_encode` / `zigzag_decode`,
`config/int.rs`).  `i64`/`u64` values are `Int`/`Nat` with explicit
wrap-around at `2^64`. -/

/-- The cast `n as u64` applied to an `i64` value. -/
def i64AsU64 (n : Int) : Nat := (n % (2 ^ 64 : Int)).toNat

/-- The cast `m as i64` applied to a `u64` value. -/
def u64AsI64 (m : Nat) : Int :=
  if m < 2 ^ 63 then (m : Int) else (m : Int) - 2 ^ 64

/-- `VarintEncoding::zigzag_encode`: for `n < 0` the source computes
`!(n as u64) * 2 + 1` (bitwise not is `2^64 - 1 - x`), otherwise
`(n as u64) * 2`, in wrapping u64 arithmetic. -/
def zigzagEncode (n : Int) : Nat :=
  if n < 0 then ((2 ^ 64 - 1 - i64AsU64 n) * 2 + 1) % 2 ^ 64
  else (i64AsU64 n * 2) % 2 ^ 64

/-- `VarintEncoding::zigzag_decode`: even values halve, odd values are
`!(n / 2) as i64`. -/
def zigzagDecode (m : Nat) : Int :=
  if m % 2 = 0 then u64AsI64 (m / 2) else u64AsI64 (2 ^ 64 - 1 - m / 2)

/-- The cast `n as u128` applied to an `i128` value. -/
def i128AsU128 (n : Int) : Nat := (n % (2 ^ 128 : Int)).toNat

/-- The cast `m as i128` applied to a `u128` value. -/
def u128AsI128 (m : Nat) : Int :=
  if m < 2 ^ 127 then (m : Int) else (m : Int) - 2 ^ 128

/-- `VarintEncoding::zigzag128_encode`. -/
def zigzag128Encode (n : Int) : Nat :=
  if n < 0 then ((2 ^ 128 - 1 - i128AsU128 n) * 2 + 1) % 2 ^ 128
  else (i128AsU128 n * 2) % 2 ^ 128

/-- `VarintEncoding::zigzag128_decode`. -/
def zigzag128Decode (m : Nat) : Int :=
  if m % 2 = 0 then u128AsI128 (m / 2) else u128AsI128 (2 ^ 128 - 1 - m / 2)

/-! ### Varint encoding (`config/int.rs`) -/

/-- `VarintEncoding::varint_size`. -/
def varintSize (n : Nat) : Nat :=
  if n ≤ 250 then 1
  else if n ≤ 65535 then 1 + 2
  else if n ≤ 4294967295 then 1 + 4
  else 1 + 8

/-- `VarintEncoding::varint128_size`. -/
def varint128Size (n : Nat) : Nat :=
  if n ≤ 250 then 1
  else if n ≤ 65535 then 1 + 2
  else if n ≤ 4294967295 then 1 + 4
  else if n ≤ 18446744073709551615 then 1 + 8
  else 1 + 16

/-- `VarintEncoding::serialize_varint` against an ideal (infallible)
writer: the emitted byte list.  Literal payloads go through the
configured endianness. -/
def serializeVarint (e : Endi) (n : Nat) : List Nat :=
  if n ≤ 250 then [n]
  else if n ≤ 65535 then 251 :: writeLit e 2 n
  else if n ≤ 4294967295 then 252 :: writeLit e 4 n
  else 253 :: writeLit e 8 n

/-- `VarintEncoding::serialize_varint128` against an ideal writer. -/
def serializeVarint128 (e : Endi) (n : Nat) : List Nat :=
  if n ≤ 250 then [n]
  else if n ≤ 65535 then 251 :: writeLit e 2 n
  else if n ≤ 4294967295 then 252 :: writeLit e 4 n
  else if n ≤ 18446744073709551615 then 253 :: writeLit e 8 n
  else 254 :: writeLit e 16 n

/-! ### Deserializer state and primitive reads (`deserialize.rs`) -/

/-- State of a running `Deserializer`: the unread suffix of the input
(the `CoreReadBytes` reader) and the mutable limit inside the options. -/
structure DState where
  input : List Nat
  limit : Limit
deriving DecidableEq, Repr


/-- `Deserializer::read_bytes`: charge `n` bytes to the limit meter,
mapping `LimitError` into `DeserializeError::LimitError`. -/
def chargeLimit (n : Nat) (s : DState) : Except DeError DState :=
  match s.limit.add n with
  | Except.ok L => Except.ok { s with limit := L }
  | Except.error e => Except.error (DeError.limitError e)

/-- A raw `self.reader.read()`: pop one byte, no limit charge (this is
what `deserialize_option` and `deserialize_char` call directly). -/
def readerRead (s : DState) : Except DeError (Nat × DState) :=
  match s.input with
  | [] => Except.error (DeError.read ReadError.endOfInput)
  | b :: rest => Except.ok (b, { s with input := rest })

/-- A raw `self.reader.read_range(k)`: pop `k` bytes, no limit charge
(`CoreReadBytes` semantics: `EndOfSlice` when fewer than `k` remain). -/
def readerReadRange (k : Nat) (s : DState) : Except DeError (List Nat × DState) :=
  if k ≤ s.input.length then
    Except.ok (s.input.take k, { s with input := s.input.drop k })
  else Except.error (DeError.read ReadError.endOfInput)

/-- `Deserializer::deserialize_byte`: charge one byte
(`read_literal_type::<u8>`) then read it. -/
def deByte (s : DState) : Except DeError (Nat × DState) := do
  let s ← chargeLimit 1 s
  readerRead s

/-- `Deserializer::deserialize_literal_uXX` for a `k`-byte literal:
charge `k` bytes, read `k` bytes, recompose with the configured
endianness. -/
def deLit (e : Endi) (k : Nat) (s : DState) : Except DeError (Nat × DState) := do
  let s ← chargeLimit k s
  let (bs, s) ← readerReadRange k s
  Except.ok (readLit e bs, s)

/-- `VarintEncoding::deserialize_varint` (the u64-domain decode path):
note that discriminator 254 (`U128_BYTE`) fails with
`InvalidValueRange`, it does not read a u128. -/
def deVarint (e : Endi) (s : DState) : Except DeError (Nat × DState) := do
  let (b, s) ← deByte s
  if b ≤ 250 then Except.ok (b, s)
  else if b = 251 then deLit e 2 s
  else if b = 252 then deLit e 4 s
  else if b = 253 then deLit e 8 s
  else if b = 254 then Except.error DeError.invalidValueRange
  else Except.error DeError.extensionPoint

/-- `VarintEncoding::deserialize_varint128` (the u128-domain decode
path): discriminator 254 reads a literal u128, 255 is the extension
point. -/
def deVarint128 (e : Endi) (s : DState) : Except DeError (Nat × DState) := do
  let (b, s) ← deByte s
  if b ≤ 250 then Except.ok (b, s)
  else if b = 251 then deLit e 2 s
  else if b = 252 then deLit e 4 s
  else if b = 253 then deLit e 8 s
  else if b = 254 then deLit e 16 s
  else Except.error DeError.extensionPoint

/-! ### BufferWriter (`buffer_writer.rs` and the older copy in `lib.rs`) -/

/-- Error enum `BufferWriterError`. -/
inductive BWError where
  | bufferTooSmall
deriving DecidableEq, Repr

/-- A `BufferWriter`: backing buffer contents plus write index. -/
structure BufferWriter where
  data : List Nat
  index : Nat
deriving DecidableEq, Repr

/-- Outcome of a write, with an explicit case for a Rust panic
(out-of-bounds slice indexing). -/
inductive WOutcome (α : Type) where
  | ok (a : α)
  | err (e : BWError)
  | panic
deriving DecidableEq, Repr

/-- `CoreWrite for &mut BufferWriter` (`buffer_writer.rs` lines 45-56,
identically `lib.rs` lines 69-80): full buffer reported as
`BufferTooSmall`, index untouched on failure. -/
def bwWriteMutRef (w : BufferWriter) (val : Nat) : Except BWError BufferWriter :=
  if w.index ≥ w.data.length then Except.error BWError.bufferTooSmall
  else Except.ok ⟨w.data.set w.index val, w.index + 1⟩

/-- `CoreWrite for BufferWriter` by value (`buffer_writer.rs` lines
58-68): the guard only checks `self.buffer.is_empty()`, then indexes
`self.buffer[self.index]`, which panics when the index has reached the
capacity of a non-empty buffer. -/
def bwWriteByValue (w : BufferWriter) (val : Nat) : WOutcome BufferWriter :=
  if w.data.length = 0 then WOutcome.err BWError.bufferTooSmall
  else if w.index < w.data.length then
    WOutcome.ok ⟨w.data.set w.index val, w.index + 1⟩
  else WOutcome.panic

/-- `CoreWrite for BufferWriter` by value in the older root module
(`lib.rs` lines 82-89): no guard at all before `self.buffer[self.index]`. -/
def bwWriteByValueLib (w : BufferWriter) (val : Nat) : WOutcome BufferWriter :=
  if w.index < w.data.length then
    WOutcome.ok ⟨w.data.set w.index val, w.index + 1⟩
  else WOutcome.panic

/-! ### UTF-8 (`encode_utf8` in `serialize.rs`/`size_checker.rs`, the
`UTF8_CHAR_WIDTH` table in `deserialize.rs`, and the validation performed
by `str::from_utf8`) -/

/-- `encode_utf8` from `serialize.rs` lines 460-483 (duplicated in
`size_checker.rs`); the shift/mask operations are written as division and
remainder (`c >> 6 & 0x3F` is `c / 64 % 64`, and the tag bits are added
on disjoint bit ranges). -/
def encodeUtf8 (c : Nat) : List Nat :=
  if c < 128 then [c]
  else if c < 2048 then [192 + c / 64 % 32, 128 + c % 64]
  else if c < 65536 then [224 + c / 4096 % 16, 128 + c / 64 % 64, 128 + c % 64]
  else [240 + c / 262144 % 8, 128 + c / 4096 % 64, 128 + c / 64 % 64, 128 + c % 64]

/-- The 256-entry `UTF8_CHAR_WIDTH` table of `deserialize.rs`, written as
the equivalent range function (the commented-out alternative right below
the table in the source). -/
def utf8CharWidth (b : Nat) : Nat :=
  if b ≤ 127 then 1
  else if b ≤ 193 then 0
  else if b ≤ 223 then 2
  else if b ≤ 239 then 3
  else if b ≤ 244 then 4
  else 0

/-- A UTF-8 continuation byte (`10xxxxxx`). -/
def isCont (b : Nat) : Prop := 128 ≤ b ∧ b ≤ 191

instance (b : Nat) : Decidable (isCont b) := by unfold isCont; infer_instance

/-- Modelled from the spec: the validation `str::from_utf8` performs on a
buffer holding exactly one UTF-8 sequence, returning the decoded scalar
value (standard UTF-8: continuation bytes `80..BF`, no overlong forms,
no surrogates, max `U+10FFFF`). -/
def utf8DecodeGroup : List Nat → Option Nat
  | [b0] => if b0 ≤ 127 then some b0 else none
  | [b0, b1] =>
    if 194 ≤ b0 ∧ b0 ≤ 223 ∧ isCont b1 then
      some ((b0 - 192) * 64 + (b1 - 128))
    else none
  | [b0, b1, b2] =>
    if 224 ≤ b0 ∧ b0 ≤ 239 ∧ isCont b1 ∧ isCont b2 ∧
        (b0 = 224 → 160 ≤ b1) ∧ (b0 = 237 → b1 ≤ 159) then
      some ((b0 - 224) * 4096 + (b1 - 128) * 64 + (b2 - 128))
    else none
  | [b0, b1, b2, b3] =>
    if 240 ≤ b0 ∧ b0 ≤ 244 ∧ isCont b1 ∧ isCont b2 ∧ isCont b3 ∧
        (b0 = 240 → 144 ≤ b1) ∧ (b0 = 244 → b1 ≤ 143) then
      some ((b0 - 240) * 262144 + (b1 - 128) * 4096 + (b2 - 128) * 64 + (b3 - 128))
    else none
  | _ => none

/-- Modelled from the spec: whole-buffer `str::from_utf8` validation,
grouping byte sequences by the leading byte's width. -/
def utf8Valid : List Nat → Bool
  | [] => true
  | b0 :: rest =>
    if utf8CharWidth b0 = 1 then utf8Valid rest
    else if utf8CharWidth b0 = 2 then
      match rest with
      | b1 :: rest2 => (utf8DecodeGroup [b0, b1]).isSome && utf8Valid rest2
      | _ => false
    else if utf8CharWidth b0 = 3 then
      match rest with
      | b1 :: b2 :: rest3 => (utf8DecodeGroup [b0, b1, b2]).isSome && utf8Valid rest3
      | _ => false
    else if utf8CharWidth b0 = 4 then
      match rest with
      | b1 :: b2 :: b3 :: rest4 => (utf8DecodeGroup [b0, b1, b2, b3]).isSome && utf8Valid rest4
      | _ => false
    else false

/-! ### Integer casts used by the deserializer (`config/int.rs` lines
621-674) and the `as` casts of the serializer -/

/-- The cast `n as uN` (for an `iN` value) into `k` bytes worth of bits. -/
def iAsU (k : Nat) (n : Int) : Nat := (n % ((2 : Int) ^ (8 * k))).toNat

/-- The cast `m as iN` (for a `uN` value) out of `k` bytes worth of bits. -/
def uAsI (k : Nat) (m : Nat) : Int :=
  if m < 2 ^ (8 * k - 1) then (m : Int) else (m : Int) - 2 ^ (8 * k)

/-- `cast_u64_to_u16`. -/
def castU64toU16 (n : Nat) : Except DeError Nat :=
  if n ≤ 65535 then Except.ok n else Except.error DeError.invalidCast

/-- `cast_u64_to_u32`. -/
def castU64toU32 (n : Nat) : Except DeError Nat :=
  if n ≤ 4294967295 then Except.ok n else Except.error DeError.invalidCast

/-- `cast_u64_to_usize`; usize is 64 bits wide on the modelled target, so
the guard `n <= usize::max_value() as u64` always holds. -/
def castU64toUsize (n : Nat) : Except DeError Nat := Except.ok n

/-- `cast_i64_to_i16`. -/
def castI64toI16 (n : Int) : Except DeError Int :=
  if n ≤ 32767 ∧ -32768 ≤ n then Except.ok n else Except.error DeError.invalidCast

/-- `cast_i64_to_i32`. -/
def castI64toI32 (n : Int) : Except DeError Int :=
  if n ≤ 2147483647 ∧ -2147483648 ≤ n then Except.ok n
  else Except.error DeError.invalidCast

/-! ### The value universe

The serde visitor protocol is type-directed: a `Ty` describes the shape a
derived `Serialize`/`Deserialize` implementation walks, a `Value` is a
runtime value of such a shape.  This models the serde-derive glue
(declared out of scope by the crate, which only adapts to it). -/

/-- Shapes of supported serializable types.  Variants of an `enum` are
field-type lists (unit variants have an empty list). -/
inductive Ty where
  | bool
  | u8
  | i8
  | u16
  | u32
  | u64
  | u128
  | i16
  | i32
  | i64
  | i128
  | char
  | str
  | bytes
  | unit
  | option (t : Ty)
  | tuple (ts : List Ty)
  | seq (t : Ty)
  | map (tk tv : Ty)
  | enum (variants : List (List Ty))
deriving Repr

/-- Runtime values.  Unsigned integers carry `Nat`, signed ones `Int`,
`char` its scalar value, `str` its UTF-8 bytes. -/
inductive Value where
  | bool (b : Bool)
  | u8 (n : Nat)
  | i8 (n : Int)
  | u16 (n : Nat)
  | u32 (n : Nat)
  | u64 (n : Nat)
  | u128 (n : Nat)
  | i16 (n : Int)
  | i32 (n : Int)
  | i64 (n : Int)
  | i128 (n : Int)
  | char (c : Nat)
  | str (bs : List Nat)
  | bytes (bs : List Nat)
  | unit
  | option (o : Option Value)
  | tuple (vs : List Value)
  | seq (vs : List Value)
  | map (ps : List (Value × Value))
  | enumv (idx : Nat) (payload : List Value)
deriving Repr

mutual

/-- Typing discipline: ranges for machine integers, UTF-8 validity for
`str` and `char`, pointwise typing for composites, a known variant for
enums.  Lengths fit `usize`/`u64` as they do for any Rust slice. -/
def wtValue : Ty → Value → Bool
  | Ty.bool, Value.bool _ => true
  | Ty.u8, Value.u8 n => decide (n < 256)
  | Ty.i8, Value.i8 n => decide (-128 ≤ n ∧ n < 128)
  | Ty.u16, Value.u16 n => decide (n < 65536)
  | Ty.u32, Value.u32 n => decide (n < 4294967296)
  | Ty.u64, Value.u64 n => decide (n < 18446744073709551616)
  | Ty.u128, Value.u128 n => decide (n < 2 ^ 128)
  | Ty.i16, Value.i16 n => decide (-32768 ≤ n ∧ n < 32768)
  | Ty.i32, Value.i32 n => decide (-2147483648 ≤ n ∧ n < 2147483648)
  | Ty.i64, Value.i64 n => decide (-(2 ^ 63) ≤ n ∧ n < 2 ^ 63)
  | Ty.i128, Value.i128 n => decide (-(2 ^ 127) ≤ n ∧ n < 2 ^ 127)
  | Ty.char, Value.char c => decide (c < 1114112 ∧ (c < 55296 ∨ 57344 ≤ c))
  | Ty.str, Value.str bs => utf8Valid bs && decide (bs.length < 2 ^ 64)
  | Ty.bytes, Value.bytes bs =>
    bs.all (fun b => decide (b < 256)) && decide (bs.length < 2 ^ 64)
  | Ty.unit, Value.unit => true
  | Ty.option _, Value.option none => true
  | Ty.option t, Value.option (some v) => wtValue t v
  | Ty.tuple ts, Value.tuple vs => wtList ts vs
  | Ty.seq t, Value.seq vs => wtMany t vs && decide (vs.length < 2 ^ 64)
  | Ty.map tk tv, Value.map ps => wtPairs tk tv ps && decide (ps.length < 2 ^ 64)
  | Ty.enum variants, Value.enumv idx payload =>
    match variants[idx]? with
    | some ts => decide (idx < 4294967296) && wtList ts payload
    | none => false
  | _, _ => false

/-- Pointwise typing of tuple/struct fields. -/
def wtList : List Ty → List Value → Bool
  | [], [] => true
  | t :: ts, v :: vs => wtValue t v && wtList ts vs
  | _, _ => false

/-- Homogeneous typing of sequence elements. -/
def wtMany (t : Ty) : List Value → Bool
  | [] => true
  | v :: vs => wtValue t v && wtMany t vs

/-- Typing of map entries. -/
def wtPairs (tk tv : Ty) : List (Value × Value) → Bool
  | [] => true
  | (k, v) :: ps => wtValue tk k && wtValue tv v && wtPairs tk tv ps

end

/-! ### Serializer (`serialize.rs`), against an ideal infallible writer.

The `Serializer` stores its options as the never-read `_options` field;
only the type-level `O::IntEncoding` / `O::Endian` choices influence the
emitted bytes, so the byte stream is a pure function of `Cfg` and the
value.  In particular the size-limit meter is never consulted. -/

/-- The `uN` serialize path (`O::IntEncoding::serialize_uN` for N in
16/32/64): varint via `serialize_varint(val as u64)`, fixint via
`serialize_literal_uN`. -/
def serializeUInt (cfg : Cfg) (k n : Nat) : List Nat :=
  match cfg.intEnc with
  | IntEnc.varint => serializeVarint cfg.endian n
  | IntEnc.fixint => writeLit cfg.endian k n

/-- The `u128` serialize path. -/
def serializeU128 (cfg : Cfg) (n : Nat) : List Nat :=
  match cfg.intEnc with
  | IntEnc.varint => serializeVarint128 cfg.endian n
  | IntEnc.fixint => writeLit cfg.endian 16 n

/-- The `iN` serialize path (N in 16/32/64): varint zigzag-encodes the
value (widened to i64, value-preserving), fixint writes `val as uN`. -/
def serializeSInt (cfg : Cfg) (k : Nat) (n : Int) : List Nat :=
  match cfg.intEnc with
  | IntEnc.varint => serializeVarint cfg.endian (zigzagEncode n)
  | IntEnc.fixint => writeLit cfg.endian k (iAsU k n)

/-- The `i128` serialize path. -/
def serializeS128 (cfg : Cfg) (n : Int) : List Nat :=
  match cfg.intEnc with
  | IntEnc.varint => serializeVarint128 cfg.endian (zigzag128Encode n)
  | IntEnc.fixint => writeLit cfg.endian 16 (iAsU 16 n)

/-- `IntEncoding::serialize_len`: the length flows through the u64 path
(`serialize_u64(len as u64)`). -/
def serializeLen (cfg : Cfg) (l : Nat) : List Nat := serializeUInt cfg 8 l

mutual

/-- The byte stream `serialize.rs` emits for a value: the
`serde::Serializer` impl for `&mut Serializer`, composed with the
standard derive-generated visitors for each shape. -/
def serializeValue (cfg : Cfg) : Value → List Nat
  | Value.bool b => [if b then 1 else 0]
  | Value.u8 n => [n]
  | Value.i8 n => [iAsU 1 n]
  | Value.u16 n => serializeUInt cfg 2 n
  | Value.u32 n => serializeUInt cfg 4 n
  | Value.u64 n => serializeUInt cfg 8 n
  | Value.u128 n => serializeU128 cfg n
  | Value.i16 n => serializeSInt cfg 2 n
  | Value.i32 n => serializeSInt cfg 4 n
  | Value.i64 n => serializeSInt cfg 8 n
  | Value.i128 n => serializeS128 cfg n
  | Value.char c => encodeUtf8 c
  | Value.str bs => serializeLen cfg bs.length ++ bs
  | Value.bytes bs => serializeLen cfg bs.length ++ bs
  | Value.unit => []
  | Value.option none => [0]
  | Value.option (some v) => 1 :: serializeValue cfg v
  | Value.tuple vs => serializeList cfg vs
  | Value.seq vs => serializeLen cfg vs.length ++ serializeList cfg vs
  | Value.map ps => serializeLen cfg ps.length ++ serializePairs cfg ps
  | Value.enumv idx payload => serializeUInt cfg 4 idx ++ serializeList cfg payload

/-- Field-by-field serialization of tuple/struct/variant payloads
(`SerializeSeq`/`SerializeTuple`/... all forward to the serializer). -/
def serializeList (cfg : Cfg) : List Value → List Nat
  | [] => []
  | v :: vs => serializeValue cfg v ++ serializeList cfg vs

/-- Key/value serialization of map entries (`SerializeMap`). -/
def serializePairs (cfg : Cfg) : List (Value × Value) → List Nat
  | [] => []
  | (k, v) :: ps => serializeValue cfg k ++ serializeValue cfg v ++ serializePairs cfg ps

end

/-- Outcome of a serializer step that can panic (`Option::expect`). -/
inductive SOutcome (α : Type) where
  | ok (a : α)
  | err (e : SerError)
  | panic (msg : String)
deriving Repr

/-- `Serializer::serialize_seq` (`serialize.rs` lines 246-249): the
length option goes through `len.expect("Sequence has no elements")`,
which PANICS when the caller supplies no length; a known length is
emitted through `serialize_len`. -/
def serializerSeqHeader (cfg : Cfg) (len : Option Nat) : SOutcome (List Nat) :=
  match len with
  | some l => SOutcome.ok (serializeLen cfg l)
  | none => SOutcome.panic "Sequence has no elements"

/-- `Serializer::serialize_map` (`serialize.rs` lines 274-277): same
`expect` as `serialize_seq`. -/
def serializerMapHeader (cfg : Cfg) (len : Option Nat) : SOutcome (List Nat) :=
  match len with
  | some l => SOutcome.ok (serializeLen cfg l)
  | none => SOutcome.panic "Sequence has no elements"

/-- The crate entry `serialize()` (`serialize.rs` lines 16-26): builds a
`Serializer` holding the options (with the limit inside) and runs
`value.serialize`.  The limit is never consulted, so with an infallible
writer the call always succeeds. -/
def serialize (cfg : Cfg) (_limit : Limit) (v : Value) : Except SerError (List Nat) :=
  Except.ok (serializeValue cfg v)

/-! ### Size checker (`size_checker.rs`) -/

/-- `IntEncoding::uN_size` (N in 16/32/64): varint consults
`varint_size`, fixint is `size_of::<uN>()`. -/
def uintSize (cfg : Cfg) (k n : Nat) : Nat :=
  match cfg.intEnc with
  | IntEnc.varint => varintSize n
  | IntEnc.fixint => k

/-- `IntEncoding::u128_size`. -/
def uint128Size (cfg : Cfg) (n : Nat) : Nat :=
  match cfg.intEnc with
  | IntEnc.varint => varint128Size n
  | IntEnc.fixint => 16

/-- `IntEncoding::iN_size` (N in 16/32/64). -/
def sintSize (cfg : Cfg) (k : Nat) (n : Int) : Nat :=
  match cfg.intEnc with
  | IntEnc.varint => varintSize (zigzagEncode n)
  | IntEnc.fixint => k

/-- `IntEncoding::i128_size`. -/
def sint128Size (cfg : Cfg) (n : Int) : Nat :=
  match cfg.intEnc with
  | IntEnc.varint => varint128Size (zigzag128Encode n)
  | IntEnc.fixint => 16

/-- `IntEncoding::len_size` (`SizeChecker::add_len`). -/
def lenSize (cfg : Cfg) (l : Nat) : Nat := uintSize cfg 8 l

mutual

/-- The total the `SizeChecker` accumulates for a value: its
`serde::Serializer` impl adds per-shape byte counts without emitting
anything. -/
def sizeValue (cfg : Cfg) : Value → Nat
  | Value.bool _ => 1
  | Value.u8 _ => 1
  | Value.i8 _ => 1
  | Value.u16 n => uintSize cfg 2 n
  | Value.u32 n => uintSize cfg 4 n
  | Value.u64 n => uintSize cfg 8 n
  | Value.u128 n => uint128Size cfg n
  | Value.i16 n => sintSize cfg 2 n
  | Value.i32 n => sintSize cfg 4 n
  | Value.i64 n => sintSize cfg 8 n
  | Value.i128 n => sint128Size cfg n
  | Value.char c => (encodeUtf8 c).length
  | Value.str bs => lenSize cfg bs.length + bs.length
  | Value.bytes bs => lenSize cfg bs.length + bs.length
  | Value.unit => 0
  | Value.option none => 1
  | Value.option (some v) => 1 + sizeValue cfg v
  | Value.tuple vs => sizeList cfg vs
  | Value.seq vs => lenSize cfg vs.length + sizeList cfg vs
  | Value.map ps => lenSize cfg ps.length + sizePairs cfg ps
  | Value.enumv idx payload => uintSize cfg 4 idx + sizeList cfg payload

/-- Accumulated size of tuple/struct/variant fields. -/
def sizeList (cfg : Cfg) : List Value → Nat
  | [] => 0
  | v :: vs => sizeValue cfg v + sizeList cfg vs

/-- Accumulated size of map entries. -/
def sizePairs (cfg : Cfg) : List (Value × Value) → Nat
  | [] => 0
  | (k, v) :: ps => sizeValue cfg k + sizeValue cfg v + sizePairs cfg ps

end

/-- `SizeChecker::serialize_seq` (`size_checker.rs` lines 120-125): a
missing length is reported as `SequenceMustHaveLength` (unlike the real
serializer, which panics). -/
def sizeCheckerSeqHeader (cfg : Cfg) (len : Option Nat) : Except SerError Nat :=
  match len with
  | some l => Except.ok (lenSize cfg l)
  | none => Except.error SerError.sequenceMustHaveLength

/-- `SizeChecker::serialize_map` (`size_checker.rs` lines 150-155). -/
def sizeCheckerMapHeader (cfg : Cfg) (len : Option Nat) : Except SerError Nat :=
  match len with
  | some l => Except.ok (lenSize cfg l)
  | none => Except.error SerError.sequenceMustHaveLength

/-- The crate entry `serialize_size()` (`serialize.rs` lines 45-52):
runs the `SizeChecker` and returns its total. -/
def serialize_size (cfg : Cfg) (v : Value) : Except SerError Nat :=
  Except.ok (sizeValue cfg v)

/-! ### Deserializer (`deserialize.rs`) -/

/-- `IntEncoding::deserialize_u16`: varint decodes then narrows through
`cast_u64_to_u16`; fixint reads a 2-byte literal. -/
def deU16 (cfg : Cfg) (s : DState) : Except DeError (Nat × DState) :=
  match cfg.intEnc with
  | IntEnc.varint => do
    let (n, s) ← deVarint cfg.endian s
    let n ← castU64toU16 n
    Except.ok (n, s)
  | IntEnc.fixint => deLit cfg.endian 2 s

/-- `IntEncoding::deserialize_u32`. -/
def deU32 (cfg : Cfg) (s : DState) : Except DeError (Nat × DState) :=
  match cfg.intEnc with
  | IntEnc.varint => do
    let (n, s) ← deVarint cfg.endian s
    let n ← castU64toU32 n
    Except.ok (n, s)
  | IntEnc.fixint => deLit cfg.endian 4 s

/-- `IntEncoding::deserialize_u64`. -/
def deU64 (cfg : Cfg) (s : DState) : Except DeError (Nat × DState) :=
  match cfg.intEnc with
  | IntEnc.varint => deVarint cfg.endian s
  | IntEnc.fixint => deLit cfg.endian 8 s

/-- `IntEncoding::deserialize_u128`. -/
def deU128 (cfg : Cfg) (s : DState) : Except DeError (Nat × DState) :=
  match cfg.intEnc with
  | IntEnc.varint => deVarint128 cfg.endian s
  | IntEnc.fixint => deLit cfg.endian 16 s

/-- `IntEncoding::deserialize_i16`: varint decodes, zigzag-decodes, then
narrows through `cast_i64_to_i16`; fixint reads the literal and
reinterprets it (`as i16`). -/
def deI16 (cfg : Cfg) (s : DState) : Except DeError (Int × DState) :=
  match cfg.intEnc with
  | IntEnc.varint => do
    let (n, s) ← deVarint cfg.endian s
    let n ← castI64toI16 (zigzagDecode n)
    Except.ok (n, s)
  | IntEnc.fixint => do
    let (n, s) ← deLit cfg.endian 2 s
    Except.ok (uAsI 2 n, s)

/-- `IntEncoding::deserialize_i32`. -/
def deI32 (cfg : Cfg) (s : DState) : Except DeError (Int × DState) :=
  match cfg.intEnc with
  | IntEnc.varint => do
    let (n, s) ← deVarint cfg.endian s
    let n ← castI64toI32 (zigzagDecode n)
    Except.ok (n, s)
  | IntEnc.fixint => do
    let (n, s) ← deLit cfg.endian 4 s
    Except.ok (uAsI 4 n, s)

/-- `IntEncoding::deserialize_i64` (no narrowing). -/
def deI64 (cfg : Cfg) (s : DState) : Except DeError (Int × DState) :=
  match cfg.intEnc with
  | IntEnc.varint => do
    let (n, s) ← deVarint cfg.endian s
    Except.ok (zigzagDecode n, s)
  | IntEnc.fixint => do
    let (n, s) ← deLit cfg.endian 8 s
    Except.ok (uAsI 8 n, s)

/-- `IntEncoding::deserialize_i128`. -/
def deI128 (cfg : Cfg) (s : DState) : Except DeError (Int × DState) :=
  match cfg.intEnc with
  | IntEnc.varint => do
    let (n, s) ← deVarint128 cfg.endian s
    Except.ok (zigzag128Decode n, s)
  | IntEnc.fixint => do
    let (n, s) ← deLit cfg.endian 16 s
    Except.ok (uAsI 16 n, s)

/-- `IntEncoding::deserialize_len`: the u64 path followed by
`cast_u64_to_usize`. -/
def deLen (cfg : Cfg) (s : DState) : Except DeError (Nat × DState) := do
  let (n, s) ← deU64 cfg s
  let n ← castU64toUsize n
  Except.ok (n, s)

/-- Read `n` bytes one at a time via `reader.read()` (how
`deserialize_char` fills its buffer); no limit charge. -/
def readerReadN : Nat → DState → Except DeError (List Nat × DState)
  | 0, s => Except.ok ([], s)
  | n + 1, s => do
    let (b, s) ← readerRead s
    let (bs, s) ← readerReadN n s
    Except.ok (b :: bs, s)

/-- `Deserializer::deserialize_char`: read one (uncharged) byte, look up
the UTF-8 width; width 1 yields the byte itself with no validation;
width 0 is `InvalidCharEncoding`; otherwise read `width - 1` more bytes
and validate through `str::from_utf8`. -/
def deChar (s : DState) : Except DeError (Nat × DState) := do
  let (b0, s) ← readerRead s
  let w := utf8CharWidth b0
  if w = 1 then Except.ok (b0, s)
  else if w = 0 then Except.error DeError.invalidCharEncoding
  else do
    let (rest, s) ← readerReadN (w - 1) s
    match utf8DecodeGroup (b0 :: rest) with
    | some c => Except.ok (c, s)
    | none => Except.error DeError.utf8

mutual

/-- The value `deserialize.rs` reconstructs for a shape: the
`serde::Deserializer` impl for `&mut Deserializer`, composed with the
standard derive-generated visitors.  Note which reads charge the limit
meter: `deserialize_byte` and the literal paths do; the raw
`reader.read()` of option tags and chars and the `read_range` of
str/bytes contents do not. -/
def deValue (cfg : Cfg) : Ty → DState → Except DeError (Value × DState)
  | Ty.bool, s => do
    let (b, s) ← deByte s
    if b = 1 then Except.ok (Value.bool true, s)
    else if b = 0 then Except.ok (Value.bool false, s)
    else Except.error (DeError.invalidBoolValue b)
  | Ty.u8, s => do
    let (b, s) ← deByte s
    Except.ok (Value.u8 b, s)
  | Ty.i8, s => do
    let (b, s) ← deByte s
    Except.ok (Value.i8 (uAsI 1 b), s)
  | Ty.u16, s => do
    let (n, s) ← deU16 cfg s
    Except.ok (Value.u16 n, s)
  | Ty.u32, s => do
    let (n, s) ← deU32 cfg s
    Except.ok (Value.u32 n, s)
  | Ty.u64, s => do
    let (n, s) ← deU64 cfg s
    Except.ok (Value.u64 n, s)
  | Ty.u128, s => do
    let (n, s) ← deU128 cfg s
    Except.ok (Value.u128 n, s)
  | Ty.i16, s => do
    let (n, s) ← deI16 cfg s
    Except.ok (Value.i16 n, s)
  | Ty.i32, s => do
    let (n, s) ← deI32 cfg s
    Except.ok (Value.i32 n, s)
  | Ty.i64, s => do
    let (n, s) ← deI64 cfg s
    Except.ok (Value.i64 n, s)
  | Ty.i128, s => do
    let (n, s) ← deI128 cfg s
    Except.ok (Value.i128 n, s)
  | Ty.char, s => do
    let (c, s) ← deChar s
    Except.ok (Value.char c, s)
  | Ty.str, s => do
    let (len, s) ← deLen cfg s
    let (bs, s) ← readerReadRange len s
    if utf8Valid bs then Except.ok (Value.str bs, s)
    else Except.error DeError.utf8
  | Ty.bytes, s => do
    let (len, s) ← deLen cfg s
    let (bs, s) ← readerReadRange len s
    Except.ok (Value.bytes bs, s)
  | Ty.unit, s => Except.ok (Value.unit, s)
  | Ty.option t, s => do
    let (b, s) ← readerRead s
    if b = 0 then Except.ok (Value.option none, s)
    else if b = 1 then do
      let (v, s) ← deValue cfg t s
      Except.ok (Value.option (some v), s)
    else Except.error (DeError.invalidOptionValue b)
  | Ty.tuple ts, s => do
    let (vs, s) ← deList cfg ts s
    Except.ok (Value.tuple vs, s)
  | Ty.seq t, s => do
    let (len, s) ← deLen cfg s
    let (vs, s) ← deMany cfg t len s
    Except.ok (Value.seq vs, s)
  | Ty.map tk tv, s => do
    let (len, s) ← deLen cfg s
    let (ps, s) ← dePairs cfg tk tv len s
    Except.ok (Value.map ps, s)
  | Ty.enum variants, s => do
    let (idx, s) ← deU32 cfg s
    match h : variants[idx]? with
    | some ts => do
      let (vs, s) ← deList cfg ts s
      Except.ok (Value.enumv idx vs, s)
    | none => Except.error DeError.panicCustom
termination_by t _ => (sizeOf t, 0)
decreasing_by
  all_goals first
    | decreasing_tactic
    | (simp_wf
       have := List.sizeOf_lt_of_mem (List.getElem?_mem h)
       omega)

/-- Field-by-field deserialization of tuple/struct/variant payloads
(`deserialize_tuple` with its counting `SeqAccess`). -/
def deList (cfg : Cfg) : List Ty → DState → Except DeError (List Value × DState)
  | [], s => Except.ok ([], s)
  | t :: ts, s => do
    let (v, s) ← deValue cfg t s
    let (vs, s) ← deList cfg ts s
    Except.ok (v :: vs, s)
termination_by ts _ => (sizeOf ts, 0)

/-- Length-counted homogeneous elements (`deserialize_seq` after the
length prefix). -/
def deMany (cfg : Cfg) (t : Ty) : Nat → DState → Except DeError (List Value × DState)
  | 0, s => Except.ok ([], s)
  | n + 1, s => do
    let (v, s) ← deValue cfg t s
    let (vs, s) ← deMany cfg t n s
    Except.ok (v :: vs, s)
termination_by n _ => (sizeOf t, n)

/-- Length-counted key/value entries (`deserialize_map` after the
length prefix). -/
def dePairs (cfg : Cfg) (tk tv : Ty) : Nat → DState → Except DeError (List (Value × Value) × DState)
  | 0, s => Except.ok ([], s)
  | n + 1, s => do
    let (k, s) ← deValue cfg tk s
    let (v, s) ← deValue cfg tv s
    let (ps, s) ← dePairs cfg tk tv n s
    Except.ok ((k, v) :: ps, s)
termination_by n _ => (sizeOf tk + sizeOf tv, n)
decreasing_by
  all_goals first
    | decreasing_tactic
    | (simp_wf; cases tv <;> simp <;> omega)

end

/-- The crate entry `deserialize()` (`deserialize.rs` lines 39-49): build
a `Deserializer` over the reader and options and run `T::deserialize`.
No trailing-bytes check is performed — the configured `O::Trailing`
policy is never consulted anywhere in the crate. -/
def deserialize (cfg : Cfg) (t : Ty) (L : Limit) (input : List Nat) : Except DeError Value :=
  match deValue cfg t ⟨input, L⟩ with
  | Except.ok (v, _) => Except.ok v
  | Except.error e => Except.error e

/-- Specification predicate: limit `L` has at least `n` bytes of budget
(trivially true for `Infinite`). -/
def LimOK : Limit → Nat → Prop
  | Limit.infinite, _ => True
  | Limit.bounded k, n => n ≤ k

instance (L : Limit) (n : Nat) : Decidable (LimOK L n) := by
  cases L <;> simp only [LimOK] <;> infer_instance

/-- Specification predicate: going from limit `L` to `L'` consumed at
most `n` bytes of budget. -/
def SpendLE (L L' : Limit) (n : Nat) : Prop :=
  ∀ m, LimOK L (n + m) → LimOK L' m

/-!
## Helper lemmas

Everything below this point is proof; the embedding above is complete.
-/

theorem toBytesLE_length (n k : Nat) : (toBytesLE n k).length = k := by
  induction k generalizing n with
  | zero => rfl
  | succ k ih => simp [toBytesLE, ih]

theorem writeLit_length (e : Endi) (k n : Nat) : (writeLit e k n).length = k := by
  cases e <;> simp [writeLit, toBytesLE_length]

theorem fromBytesLE_toBytesLE (n k : Nat) :
    fromBytesLE (toBytesLE n k) = n % 256 ^ k := by
  induction k generalizing n with
  | zero => simp [toBytesLE, fromBytesLE, Nat.mod_one]
  | succ k ih =>
    simp only [toBytesLE, fromBytesLE, ih]
    rw [pow_succ', Nat.mod_mul]

theorem readLit_writeLit (e : Endi) (k n : Nat) (h : n < 256 ^ k) :
    readLit e (writeLit e k n) = n := by
  cases e <;>
    simp [readLit, writeLit, fromBytesLE_toBytesLE, Nat.mod_eq_of_lt h]

theorem toBytesLE_lt (n k : Nat) : ∀ b ∈ toBytesLE n k, b < 256 := by
  induction k generalizing n with
  | zero => simp [toBytesLE]
  | succ k ih =>
    intro b hb
    simp only [toBytesLE, List.mem_cons] at hb
    rcases hb with h | h
    · exact h ▸ Nat.mod_lt _ (by norm_num)
    · exact ih _ _ h


theorem LimOK.mono {L : Limit} {a b : Nat} (h : LimOK L a) (hba : b ≤ a) :
    LimOK L b := by
  cases L with
  | infinite => trivial
  | bounded k => exact le_trans hba h

theorem SpendLE.zero (L : Limit) : SpendLE L L 0 := fun m h => by
  rwa [Nat.zero_add] at h

theorem SpendLE.trans {L1 L2 L3 : Limit} {a b : Nat}
    (h1 : SpendLE L1 L2 a) (h2 : SpendLE L2 L3 b) : SpendLE L1 L3 (a + b) := by
  intro m hm
  exact h2 m (h1 (b + m) (by rwa [← Nat.add_assoc]))

theorem SpendLE.widen {L L' : Limit} {a b : Nat}
    (h : SpendLE L L' a) (hab : a ≤ b) : SpendLE L L' b := by
  intro m hm
  exact (h m (hm.mono (by omega))).mono (le_refl m)

/-! ### Zigzag lemmas -/

theorem zigzagDecode_zigzagEncode {n : Int}
    (h1 : -(2 ^ 63) ≤ n) (h2 : n < 2 ^ 63) :
    zigzagDecode (zigzagEncode n) = n := by
  simp only [zigzagEncode, zigzagDecode, i64AsU64, u64AsI64] at *
  norm_num at *
  split_ifs <;> omega

theorem zigzagEncode_zigzagDecode {m : Nat} (h : m < 2 ^ 64) :
    zigzagEncode (zigzagDecode m) = m := by
  simp only [zigzagEncode, zigzagDecode, i64AsU64, u64AsI64] at *
  norm_num at *
  split_ifs <;> omega

theorem zigzagEncode_lt (n : Int) : zigzagEncode n < 2 ^ 64 := by
  unfold zigzagEncode
  split_ifs <;> exact Nat.mod_lt _ (by norm_num)

theorem zigzag128Decode_zigzag128Encode {n : Int}
    (h1 : -(2 ^ 127) ≤ n) (h2 : n < 2 ^ 127) :
    zigzag128Decode (zigzag128Encode n) = n := by
  simp only [zigzag128Encode, zigzag128Decode, i128AsU128, u128AsI128] at *
  norm_num at *
  split_ifs <;> omega

theorem zigzag128Encode_lt (n : Int) : zigzag128Encode n < 2 ^ 128 := by
  unfold zigzag128Encode
  split_ifs <;> exact Nat.mod_lt _ (by norm_num)

/-! ### Claim theorems: zigzag (C8), limit meter (C10), buffer writer
(C9), missing sequence length (C5) -/

/-- C8: the zigzag transform is a bijection between i64 and u64: decode
inverts encode on the i64 range, encode inverts decode on the u64 range,
with the documented fixed points and boundary values. -/
theorem zigzag_bijection :
    (∀ n : Int, -(2 ^ 63) ≤ n → n < 2 ^ 63 →
      zigzagDecode (zigzagEncode n) = n) ∧
    (∀ m : Nat, m < 2 ^ 64 → zigzagEncode (zigzagDecode m) = m) ∧
    zigzagEncode 0 = 0 ∧ zigzagEncode (-1) = 1 ∧ zigzagEncode 1 = 2 ∧
    zigzagEncode (-(2 ^ 63)) = 2 ^ 64 - 1 ∧
    zigzagEncode (2 ^ 63 - 1) = 2 ^ 64 - 2 := by
  refine ⟨fun n h1 h2 => zigzagDecode_zigzagEncode h1 h2,
    fun m h => zigzagEncode_zigzagDecode h, ?_, ?_, ?_, ?_, ?_⟩ <;>
    (simp only [zigzagEncode, i64AsU64]; norm_num; try omega)

/-- C8 witness: the bijection applied at concrete points. -/
theorem zigzag_bijection_witness :
    zigzagDecode (zigzagEncode (-5)) = -5 ∧ zigzagEncode (zigzagDecode 12) = 12 :=
  ⟨zigzag_bijection.1 (-5) (by norm_num) (by norm_num),
   zigzag_bijection.2.1 12 (by norm_num)⟩

/-- C10: `Bounded::add(n)` fails with `LimitReached` exactly when `n`
exceeds the remaining budget; on failure the budget is unchanged, and a
subsequent `add(n')` within the remaining budget still succeeds. -/
theorem bounded_add_spec (k n : Nat) :
    ((boundedAdd k n).1 = some LimitError.limitReached ↔ k < n) ∧
    (k < n → (boundedAdd k n).2 = k) ∧
    (n ≤ k → boundedAdd k n = (none, k - n)) ∧
    (∀ n', k < n → n' ≤ k → boundedAdd ((boundedAdd k n).2) n' = (none, k - n')) := by
  unfold boundedAdd
  refine ⟨?_, ?_, ?_, ?_⟩
  · split_ifs with h <;> simp <;> omega
  · intro h
    split_ifs with h2 <;> simp <;> omega
  · intro h
    simp [h]
  · intro n' h h'
    split_ifs with h2 <;> simp <;> omega

/-- C10 witness: a failing add on budget 3 leaves the budget usable. -/
theorem bounded_add_spec_witness :
    ((boundedAdd 3 5).1 = some LimitError.limitReached ↔ 3 < 5) ∧
    boundedAdd ((boundedAdd 3 5).2) 2 = (none, 3 - 2) :=
  ⟨(bounded_add_spec 3 5).1, (bounded_add_spec 3 5).2.2.2 2 (by norm_num) (by norm_num)⟩

/-- C9 (code bug): on a full but non-empty buffer, the by-value
`CoreWrite for BufferWriter` impls index out of bounds (a panic) instead
of returning `BufferTooSmall`; only the `&mut` impl returns the error
and leaves the index unchanged. -/
theorem bufferwriter_byvalue_write_panics :
    bwWriteByValue ⟨[7], 1⟩ 3 = WOutcome.panic ∧
    bwWriteByValueLib ⟨[7], 1⟩ 3 = WOutcome.panic ∧
    bwWriteMutRef ⟨[7], 1⟩ 3 = Except.error BWError.bufferTooSmall :=
  ⟨rfl, rfl, rfl⟩

/-! ### Reader/limit step lemmas -/

theorem chargeLimit_ok {L : Limit} {n : Nat} (input : List Nat) (h : LimOK L n) :
    ∃ L', chargeLimit n ⟨input, L⟩ = Except.ok ⟨input, L'⟩ ∧ SpendLE L L' n := by
  cases L with
  | infinite => exact ⟨Limit.infinite, rfl, fun m _ => trivial⟩
  | bounded k =>
    refine ⟨Limit.bounded (k - n), ?_, ?_⟩
    · simp only [LimOK] at h
      simp [chargeLimit, Limit.add, boundedAdd, h]
    · intro m hm
      simp only [LimOK] at *
      omega

theorem deByte_ok {L : Limit} (b : Nat) (rest : List Nat) (h : LimOK L 1) :
    ∃ L', deByte ⟨b :: rest, L⟩ = Except.ok (b, ⟨rest, L'⟩) ∧ SpendLE L L' 1 := by
  obtain ⟨L', hc, hs⟩ := chargeLimit_ok (b :: rest) h
  exact ⟨L', by simp [deByte, hc, readerRead, Except.bind, Bind.bind], hs⟩

theorem readerReadRange_append {L : Limit} (bs rest : List Nat) :
    readerReadRange bs.length ⟨bs ++ rest, L⟩ = Except.ok (bs, ⟨rest, L⟩) := by
  simp [readerReadRange, List.take_left, List.drop_left]

theorem deLit_ok {L : Limit} (e : Endi) (k n : Nat) (rest : List Nat)
    (hn : n < 256 ^ k) (h : LimOK L k) :
    ∃ L', deLit e k ⟨writeLit e k n ++ rest, L⟩ = Except.ok (n, ⟨rest, L'⟩) ∧
      SpendLE L L' k := by
  obtain ⟨L', hc, hs⟩ := chargeLimit_ok (writeLit e k n ++ rest) h
  refine ⟨L', ?_, hs⟩
  have hr : readerReadRange k ⟨writeLit e k n ++ rest, L'⟩ =
      Except.ok (writeLit e k n, ⟨rest, L'⟩) := by
    have := readerReadRange_append (L := L') (writeLit e k n) rest
    rwa [writeLit_length] at this
  simp [deLit, hc, hr, readLit_writeLit e k n hn, Except.bind, Bind.bind]

/-! ### Varint round-trip lemmas -/

theorem serializeVarint_length (e : Endi) (n : Nat) :
    (serializeVarint e n).length = varintSize n := by
  unfold serializeVarint varintSize
  split_ifs <;> simp [writeLit_length]

theorem serializeVarint128_length (e : Endi) (n : Nat) :
    (serializeVarint128 e n).length = varint128Size n := by
  unfold serializeVarint128 varint128Size
  split_ifs <;> simp [writeLit_length]

theorem deVarint_serializeVarint (e : Endi) {L : Limit} (n : Nat) (rest : List Nat)
    (hn : n < 2 ^ 64) (h : LimOK L (varintSize n)) :
    ∃ L', deVarint e ⟨serializeVarint e n ++ rest, L⟩ = Except.ok (n, ⟨rest, L'⟩) ∧
      SpendLE L L' (varintSize n) := by
  by_cases h1 : n ≤ 250
  · obtain ⟨L', hb, hs⟩ := deByte_ok n rest (h.mono (by simp [varintSize, h1]))
    refine ⟨L', ?_, by simpa [varintSize, h1] using hs⟩
    simp [serializeVarint, h1, deVarint, hb, Except.bind, Bind.bind]
  · by_cases h2 : n ≤ 65535
    · obtain ⟨L1, hb, hs1⟩ := deByte_ok 251 (writeLit e 2 n ++ rest)
        (h.mono (by simp [varintSize, h1, h2]))

      obtain ⟨L2, hl, hs2⟩ := deLit_ok e 2 n rest (by norm_num; omega)
        (hs1 2 (h.mono (by simp [varintSize, h1, h2])))
      refine ⟨L2, ?_, ?_⟩
      · simp [serializeVarint, h1, h2, deVarint, hb, hl, Except.bind, Bind.bind]
      · simpa [varintSize, h1, h2] using hs1.trans hs2
    · by_cases h3 : n ≤ 4294967295
      · obtain ⟨L1, hb, hs1⟩ := deByte_ok 252 (writeLit e 4 n ++ rest)
          (h.mono (by simp [varintSize, h1, h2, h3]))
        obtain ⟨L2, hl, hs2⟩ := deLit_ok e 4 n rest (by norm_num; omega)
          (hs1 4 (h.mono (by simp [varintSize, h1, h2, h3])))
        refine ⟨L2, ?_, ?_⟩
        · simp [serializeVarint, h1, h2, h3, deVarint, hb, hl, Except.bind, Bind.bind]
        · simpa [varintSize, h1, h2, h3] using hs1.trans hs2
      · obtain ⟨L1, hb, hs1⟩ := deByte_ok 253 (writeLit e 8 n ++ rest)
          (h.mono (by simp [varintSize, h1, h2, h3]))
        obtain ⟨L2, hl, hs2⟩ := deLit_ok e 8 n rest (by norm_num; omega)
          (hs1 8 (h.mono (by simp [varintSize, h1, h2, h3])))
        refine ⟨L2, ?_, ?_⟩
        · simp [serializeVarint, h1, h2, h3, deVarint, hb, hl, Except.bind, Bind.bind]
        · simpa [varintSize, h1, h2, h3] using hs1.trans hs2

theorem deVarint128_serializeVarint128 (e : Endi) {L : Limit} (n : Nat)
    (rest : List Nat) (hn : n < 2 ^ 128) (h : LimOK L (varint128Size n)) :
    ∃ L', deVarint128 e ⟨serializeVarint128 e n ++ rest, L⟩ =
        Except.ok (n, ⟨rest, L'⟩) ∧
      SpendLE L L' (varint128Size n) := by
  by_cases h1 : n ≤ 250
  · obtain ⟨L', hb, hs⟩ := deByte_ok n rest (h.mono (by simp [varint128Size, h1]))
    refine ⟨L', ?_, by simpa [varint128Size, h1] using hs⟩
    simp [serializeVarint128, h1, deVarint128, hb, Except.bind, Bind.bind]
  · by_cases h2 : n ≤ 65535
    · obtain ⟨L1, hb, hs1⟩ := deByte_ok 251 (writeLit e 2 n ++ rest)
        (h.mono (by simp [varint128Size, h1, h2]))
      obtain ⟨L2, hl, hs2⟩ := deLit_ok e 2 n rest (by norm_num; omega)
        (hs1 2 (h.mono (by simp [varint128Size, h1, h2])))
      refine ⟨L2, ?_, ?_⟩
      · simp [serializeVarint128, h1, h2, deVarint128, hb, hl, Except.bind, Bind.bind]
      · simpa [varint128Size, h1, h2] using hs1.trans hs2
    · by_cases h3 : n ≤ 4294967295
      · obtain ⟨L1, hb, hs1⟩ := deByte_ok 252 (writeLit e 4 n ++ rest)
          (h.mono (by simp [varint128Size, h1, h2, h3]))
        obtain ⟨L2, hl, hs2⟩ := deLit_ok e 4 n rest (by norm_num; omega)
          (hs1 4 (h.mono (by simp [varint128Size, h1, h2, h3])))
        refine ⟨L2, ?_, ?_⟩
        · simp [serializeVarint128, h1, h2, h3, deVarint128, hb, hl, Except.bind, Bind.bind]
        · simpa [varint128Size, h1, h2, h3] using hs1.trans hs2
      · by_cases h4 : n ≤ 18446744073709551615
        · obtain ⟨L1, hb, hs1⟩ := deByte_ok 253 (writeLit e 8 n ++ rest)
            (h.mono (by simp [varint128Size, h1, h2, h3, h4]))
          obtain ⟨L2, hl, hs2⟩ := deLit_ok e 8 n rest (by norm_num; omega)
            (hs1 8 (h.mono (by simp [varint128Size, h1, h2, h3, h4])))
          refine ⟨L2, ?_, ?_⟩
          · simp [serializeVarint128, h1, h2, h3, h4, deVarint128, hb, hl, Except.bind, Bind.bind]
          · simpa [varint128Size, h1, h2, h3, h4] using hs1.trans hs2
        · obtain ⟨L1, hb, hs1⟩ := deByte_ok 254 (writeLit e 16 n ++ rest)
            (h.mono (by simp [varint128Size, h1, h2, h3, h4]))
          obtain ⟨L2, hl, hs2⟩ := deLit_ok e 16 n rest (by norm_num; omega)
            (hs1 16 (h.mono (by simp [varint128Size, h1, h2, h3, h4])))
          refine ⟨L2, ?_, ?_⟩
          · simp [serializeVarint128, h1, h2, h3, h4, deVarint128, hb, hl, Except.bind, Bind.bind]
          · simpa [varint128Size, h1, h2, h3, h4] using hs1.trans hs2

theorem deByte_infinite (b : Nat) (rest : List Nat) :
    deByte ⟨b :: rest, Limit.infinite⟩ = Except.ok (b, ⟨rest, Limit.infinite⟩) := rfl

theorem deLit_infinite (e : Endi) (k n : Nat) (rest : List Nat) (hn : n < 256 ^ k) :
    deLit e k ⟨writeLit e k n ++ rest, Limit.infinite⟩ =
      Except.ok (n, ⟨rest, Limit.infinite⟩) := by
  have hr := readerReadRange_append (L := Limit.infinite) (writeLit e k n) rest
  rw [writeLit_length] at hr
  simp [deLit, chargeLimit, Limit.add, hr, readLit_writeLit e k n hn,
    Except.bind, Bind.bind]

/-- C6 (corrected): dispatch on the leading varint byte.  Bytes 0..=250
denote themselves, 251/252/253 read a literal u16/u32/u64, and byte 255
fails with `ExtensionPoint` — in both decode paths.  Byte 254, however,
reads a literal u128 only in the u128 path (`deserialize_varint128`);
the 64-bit path (`deserialize_varint`) fails with `InvalidValueRange`. -/
theorem varint_decode_dispatch (e : Endi) (rest : List Nat) :
    (∀ b : Nat, b ≤ 250 →
      deVarint e ⟨b :: rest, Limit.infinite⟩ =
        Except.ok (b, ⟨rest, Limit.infinite⟩) ∧
      deVarint128 e ⟨b :: rest, Limit.infinite⟩ =
        Except.ok (b, ⟨rest, Limit.infinite⟩)) ∧
    (∀ n : Nat, n < 2 ^ 16 →
      deVarint e ⟨251 :: (writeLit e 2 n ++ rest), Limit.infinite⟩ =
        Except.ok (n, ⟨rest, Limit.infinite⟩) ∧
      deVarint128 e ⟨251 :: (writeLit e 2 n ++ rest), Limit.infinite⟩ =
        Except.ok (n, ⟨rest, Limit.infinite⟩)) ∧
    (∀ n : Nat, n < 2 ^ 32 →
      deVarint e ⟨252 :: (writeLit e 4 n ++ rest), Limit.infinite⟩ =
        Except.ok (n, ⟨rest, Limit.infinite⟩) ∧
      deVarint128 e ⟨252 :: (writeLit e 4 n ++ rest), Limit.infinite⟩ =
        Except.ok (n, ⟨rest, Limit.infinite⟩)) ∧
    (∀ n : Nat, n < 2 ^ 64 →
      deVarint e ⟨253 :: (writeLit e 8 n ++ rest), Limit.infinite⟩ =
        Except.ok (n, ⟨rest, Limit.infinite⟩) ∧
      deVarint128 e ⟨253 :: (writeLit e 8 n ++ rest), Limit.infinite⟩ =
        Except.ok (n, ⟨rest, Limit.infinite⟩)) ∧
    deVarint e ⟨254 :: rest, Limit.infinite⟩ =
      Except.error DeError.invalidValueRange ∧
    (∀ n : Nat, n < 2 ^ 128 →
      deVarint128 e ⟨254 :: (writeLit e 16 n ++ rest), Limit.infinite⟩ =
        Except.ok (n, ⟨rest, Limit.infinite⟩)) ∧
    deVarint e ⟨255 :: rest, Limit.infinite⟩ =
      Except.error DeError.extensionPoint ∧
    deVarint128 e ⟨255 :: rest, Limit.infinite⟩ =
      Except.error DeError.extensionPoint := by
  refine ⟨?_, ?_, ?_, ?_, ?_, ?_, ?_, ?_⟩
  · intro b hb
    constructor <;>
      simp [deVarint, deVarint128, deByte_infinite, hb, Except.bind, Bind.bind]
  · intro n hn
    have hl := deLit_infinite e 2 n rest (by norm_num at hn ⊢; omega)
    constructor <;>
      norm_num [deVarint, deVarint128, deByte_infinite, hl, Except.bind, Bind.bind]
  · intro n hn
    have hl := deLit_infinite e 4 n rest (by norm_num at hn ⊢; omega)
    constructor <;>
      norm_num [deVarint, deVarint128, deByte_infinite, hl, Except.bind, Bind.bind]
  · intro n hn
    have hl := deLit_infinite e 8 n rest (by norm_num at hn ⊢; omega)
    constructor <;>
      norm_num [deVarint, deVarint128, deByte_infinite, hl, Except.bind, Bind.bind]
  · norm_num [deVarint, deByte_infinite, Except.bind, Bind.bind]
  · intro n hn
    have hl := deLit_infinite e 16 n rest (by norm_num at hn ⊢; omega)
    norm_num [deVarint128, deByte_infinite, hl, Except.bind, Bind.bind]
  · norm_num [deVarint, deByte_infinite, Except.bind, Bind.bind]
  · norm_num [deVarint128, deByte_infinite, Except.bind, Bind.bind]

/-- C6 witness: the dispatch applied at single-byte 9 and at a
251-prefixed u16. -/
theorem varint_decode_dispatch_witness :
    deVarint Endi.little ⟨9 :: [], Limit.infinite⟩ =
      Except.ok (9, ⟨[], Limit.infinite⟩) ∧
    deVarint Endi.little ⟨251 :: (writeLit Endi.little 2 300 ++ []), Limit.infinite⟩ =
      Except.ok (300, ⟨[], Limit.infinite⟩) :=
  ⟨((varint_decode_dispatch Endi.little []).1 9 (by norm_num)).1,
   ((varint_decode_dispatch Endi.little []).2.1 300 (by norm_num)).1⟩

/-- C6 counterexample: the claim says byte 254 is followed by a literal
u128 in EVERY integer-width decode path, but the 64-bit path
(`deserialize_varint`) fails with `InvalidValueRange` without reading
the following 16 bytes. -/
theorem varint64_254_invalid_value_range :
    deVarint Endi.little ⟨254 :: List.replicate 16 0, Limit.infinite⟩ =
      Except.error DeError.invalidValueRange := rfl

/-- C7: varint output is canonical: values up to 250 are a single byte
holding the value, a 251/252/253/254 prefix is only emitted when the
value does not fit the next smaller form, and the size functions return
exactly 1, 3, 5, 9, 17 at the documented thresholds, matching the length
of the bytes actually written. -/
theorem varint_canonical_encoding (e : Endi) (n : Nat) :
    ((serializeVarint e n).length = varintSize n) ∧
    ((serializeVarint128 e n).length = varint128Size n) ∧
    (n ≤ 250 → serializeVarint e n = [n] ∧ serializeVarint128 e n = [n] ∧
      varintSize n = 1) ∧
    (250 < n → n ≤ 65535 → serializeVarint e n = 251 :: writeLit e 2 n ∧
      varintSize n = 3) ∧
    (65535 < n → n ≤ 4294967295 → serializeVarint e n = 252 :: writeLit e 4 n ∧
      varintSize n = 5) ∧
    (4294967295 < n → serializeVarint e n = 253 :: writeLit e 8 n ∧
      varintSize n = 9) ∧
    (n ≤ 18446744073709551615 → serializeVarint128 e n = serializeVarint e n) ∧
    (18446744073709551615 < n → serializeVarint128 e n = 254 :: writeLit e 16 n ∧
      varint128Size n = 17) := by
  refine ⟨serializeVarint_length e n, serializeVarint128_length e n, ?_, ?_, ?_, ?_, ?_, ?_⟩ <;>
    (intros
     simp only [serializeVarint, serializeVarint128, varintSize, varint128Size]
     split_ifs <;>
       first
         | rfl
         | exact ⟨rfl, rfl⟩
         | exact ⟨rfl, rfl, rfl⟩
         | (exfalso; omega))

/-- C7 witness: canonical forms at 250, 251 and `2^64`. -/
theorem varint_canonical_encoding_witness :
    serializeVarint Endi.little 250 = [250] ∧
    serializeVarint Endi.little 251 = 251 :: writeLit Endi.little 2 251 ∧
    serializeVarint128 Endi.little (2 ^ 64) =
      254 :: writeLit Endi.little 16 (2 ^ 64) :=
  ⟨((varint_canonical_encoding Endi.little 250).2.2.1 (by norm_num)).1,
   ((varint_canonical_encoding Endi.little 251).2.2.2.1 (by norm_num) (by norm_num)).1,
   ((varint_canonical_encoding Endi.little (2 ^ 64)).2.2.2.2.2.2.2 (by norm_num)).1⟩

/-! ### Size agreement (C2) -/

theorem serializeUInt_length (cfg : Cfg) (k n : Nat) :
    (serializeUInt cfg k n).length = uintSize cfg k n := by
  cases h : cfg.intEnc <;>
    simp [serializeUInt, uintSize, h, serializeVarint_length, writeLit_length]

theorem serializeU128_length (cfg : Cfg) (n : Nat) :
    (serializeU128 cfg n).length = uint128Size cfg n := by
  cases h : cfg.intEnc <;>
    simp [serializeU128, uint128Size, h, serializeVarint128_length, writeLit_length]

theorem serializeSInt_length (cfg : Cfg) (k : Nat) (n : Int) :
    (serializeSInt cfg k n).length = sintSize cfg k n := by
  cases h : cfg.intEnc <;>
    simp [serializeSInt, sintSize, h, serializeVarint_length, writeLit_length]

theorem serializeS128_length (cfg : Cfg) (n : Int) :
    (serializeS128 cfg n).length = sint128Size cfg n := by
  cases h : cfg.intEnc <;>
    simp [serializeS128, sint128Size, h, serializeVarint128_length, writeLit_length]

theorem serializeLen_length (cfg : Cfg) (l : Nat) :
    (serializeLen cfg l).length = lenSize cfg l :=
  serializeUInt_length cfg 8 l

mutual

theorem sizeValue_eq_length (cfg : Cfg) (v : Value) :
    sizeValue cfg v = (serializeValue cfg v).length := by
  cases v with
  | bool b => simp [sizeValue, serializeValue]
  | u8 n => simp [sizeValue, serializeValue]
  | i8 n => simp [sizeValue, serializeValue]
  | u16 n => simp [sizeValue, serializeValue, serializeUInt_length]
  | u32 n => simp [sizeValue, serializeValue, serializeUInt_length]
  | u64 n => simp [sizeValue, serializeValue, serializeUInt_length]
  | u128 n => simp [sizeValue, serializeValue, serializeU128_length]
  | i16 n => simp [sizeValue, serializeValue, serializeSInt_length]
  | i32 n => simp [sizeValue, serializeValue, serializeSInt_length]
  | i64 n => simp [sizeValue, serializeValue, serializeSInt_length]
  | i128 n => simp [sizeValue, serializeValue, serializeS128_length]
  | char c => simp [sizeValue, serializeValue]
  | str bs => simp [sizeValue, serializeValue, serializeLen_length]
  | bytes bs => simp [sizeValue, serializeValue, serializeLen_length]
  | unit => simp [sizeValue, serializeValue]
  | option o =>
    cases o with
    | none => simp [sizeValue, serializeValue]
    | some v =>
      simp [sizeValue, serializeValue, sizeValue_eq_length cfg v]
      omega
  | tuple vs => simp [sizeValue, serializeValue, sizeList_eq_length cfg vs]
  | seq vs =>
    simp [sizeValue, serializeValue, sizeList_eq_length cfg vs, serializeLen_length]
  | map ps =>
    simp [sizeValue, serializeValue, sizePairs_eq_length cfg ps, serializeLen_length]
  | enumv idx payload =>
    simp [sizeValue, serializeValue, serializeUInt_length,
      sizeList_eq_length cfg payload]
termination_by sizeOf v

theorem sizeList_eq_length (cfg : Cfg) (vs : List Value) :
    sizeList cfg vs = (serializeList cfg vs).length := by
  cases vs with
  | nil => simp [sizeList, serializeList]
  | cons v vs =>
    simp [sizeList, serializeList, sizeValue_eq_length cfg v,
      sizeList_eq_length cfg vs]
termination_by sizeOf vs

theorem sizePairs_eq_length (cfg : Cfg) (ps : List (Value × Value)) :
    sizePairs cfg ps = (serializePairs cfg ps).length := by
  cases ps with
  | nil => simp [sizePairs, serializePairs]
  | cons p ps =>
    obtain ⟨k, v⟩ := p
    simp [sizePairs, serializePairs, sizeValue_eq_length cfg k,
      sizeValue_eq_length cfg v, sizePairs_eq_length cfg ps]
    omega
termination_by sizeOf ps

end

/-- C2: the counting size checker and the real serializer agree:
`serialize_size` returns exactly the length of the byte stream
`serialize` writes, for every value and every Options. -/
theorem serialize_size_agreement (cfg : Cfg) (L : Limit) (v : Value) :
    serialize_size cfg v = (serialize cfg L v).map List.length := by
  simp [serialize_size, serialize, sizeValue_eq_length, Except.map]

/-! ### Integer-path round-trip lemmas -/

theorem deU16_ok (cfg : Cfg) {L : Limit} (n : Nat) (rest : List Nat)
    (hn : n < 65536) (h : LimOK L (serializeUInt cfg 2 n).length) :
    ∃ L', deU16 cfg ⟨serializeUInt cfg 2 n ++ rest, L⟩ = Except.ok (n, ⟨rest, L'⟩) ∧
      SpendLE L L' (serializeUInt cfg 2 n).length := by
  cases henc : cfg.intEnc with
  | varint =>
    simp only [serializeUInt, henc] at h ⊢
    rw [serializeVarint_length] at h
    obtain ⟨L', hv, hs⟩ := deVarint_serializeVarint cfg.endian n rest (by omega) h
    refine ⟨L', ?_, by rwa [serializeVarint_length]⟩
    simp [deU16, henc, hv, castU64toU16, Nat.lt_succ_iff.mp hn,
      Except.bind, Bind.bind]
  | fixint =>
    simp only [serializeUInt, henc] at h ⊢
    rw [writeLit_length] at h
    obtain ⟨L', hl, hs⟩ := deLit_ok cfg.endian 2 n rest (by norm_num; omega) h
    refine ⟨L', ?_, by rwa [writeLit_length]⟩
    simp [deU16, henc, hl]

theorem deU32_ok (cfg : Cfg) {L : Limit} (n : Nat) (rest : List Nat)
    (hn : n < 4294967296) (h : LimOK L (serializeUInt cfg 4 n).length) :
    ∃ L', deU32 cfg ⟨serializeUInt cfg 4 n ++ rest, L⟩ = Except.ok (n, ⟨rest, L'⟩) ∧
      SpendLE L L' (serializeUInt cfg 4 n).length := by
  cases henc : cfg.intEnc with
  | varint =>
    simp only [serializeUInt, henc] at h ⊢
    rw [serializeVarint_length] at h
    obtain ⟨L', hv, hs⟩ := deVarint_serializeVarint cfg.endian n rest (by omega) h
    refine ⟨L', ?_, by rwa [serializeVarint_length]⟩
    simp [deU32, henc, hv, castU64toU32, Nat.lt_succ_iff.mp hn,
      Except.bind, Bind.bind]
  | fixint =>
    simp only [serializeUInt, henc] at h ⊢
    rw [writeLit_length] at h
    obtain ⟨L', hl, hs⟩ := deLit_ok cfg.endian 4 n rest (by norm_num; omega) h
    refine ⟨L', ?_, by rwa [writeLit_length]⟩
    simp [deU32, henc, hl]

theorem deU64_ok (cfg : Cfg) {L : Limit} (n : Nat) (rest : List Nat)
    (hn : n < 18446744073709551616) (h : LimOK L (serializeUInt cfg 8 n).length) :
    ∃ L', deU64 cfg ⟨serializeUInt cfg 8 n ++ rest, L⟩ = Except.ok (n, ⟨rest, L'⟩) ∧
      SpendLE L L' (serializeUInt cfg 8 n).length := by
  cases henc : cfg.intEnc with
  | varint =>
    simp only [serializeUInt, henc] at h ⊢
    rw [serializeVarint_length] at h
    obtain ⟨L', hv, hs⟩ := deVarint_serializeVarint cfg.endian n rest (by norm_num; omega) h
    refine ⟨L', ?_, by rwa [serializeVarint_length]⟩
    simp [deU64, henc, hv]
  | fixint =>
    simp only [serializeUInt, henc] at h ⊢
    rw [writeLit_length] at h
    obtain ⟨L', hl, hs⟩ := deLit_ok cfg.endian 8 n rest (by norm_num; omega) h
    refine ⟨L', ?_, by rwa [writeLit_length]⟩
    simp [deU64, henc, hl]

theorem deU128_ok (cfg : Cfg) {L : Limit} (n : Nat) (rest : List Nat)
    (hn : n < 2 ^ 128) (h : LimOK L (serializeU128 cfg n).length) :
    ∃ L', deU128 cfg ⟨serializeU128 cfg n ++ rest, L⟩ = Except.ok (n, ⟨rest, L'⟩) ∧
      SpendLE L L' (serializeU128 cfg n).length := by
  cases henc : cfg.intEnc with
  | varint =>
    simp only [serializeU128, henc] at h ⊢
    rw [serializeVarint128_length] at h
    obtain ⟨L', hv, hs⟩ := deVarint128_serializeVarint128 cfg.endian n rest hn h
    refine ⟨L', ?_, by rwa [serializeVarint128_length]⟩
    simp [deU128, henc, hv]
  | fixint =>
    simp only [serializeU128, henc] at h ⊢
    rw [writeLit_length] at h
    obtain ⟨L', hl, hs⟩ := deLit_ok cfg.endian 16 n rest (by norm_num; omega) h
    refine ⟨L', ?_, by rwa [writeLit_length]⟩
    simp [deU128, henc, hl]

theorem deLen_ok (cfg : Cfg) {L : Limit} (l : Nat) (rest : List Nat)
    (hl : l < 18446744073709551616) (h : LimOK L (serializeLen cfg l).length) :
    ∃ L', deLen cfg ⟨serializeLen cfg l ++ rest, L⟩ = Except.ok (l, ⟨rest, L'⟩) ∧
      SpendLE L L' (serializeLen cfg l).length := by
  obtain ⟨L', hu, hs⟩ := deU64_ok cfg l rest hl h
  exact ⟨L', by simp [deLen, serializeLen, hu, castU64toUsize, Except.bind, Bind.bind], hs⟩

theorem deI16_ok (cfg : Cfg) {L : Limit} (n : Int) (rest : List Nat)
    (hn1 : -32768 ≤ n) (hn2 : n < 32768) (h : LimOK L (serializeSInt cfg 2 n).length) :
    ∃ L', deI16 cfg ⟨serializeSInt cfg 2 n ++ rest, L⟩ = Except.ok (n, ⟨rest, L'⟩) ∧
      SpendLE L L' (serializeSInt cfg 2 n).length := by
  cases henc : cfg.intEnc with
  | varint =>
    simp only [serializeSInt, henc] at h ⊢
    rw [serializeVarint_length] at h
    obtain ⟨L', hv, hs⟩ :=
      deVarint_serializeVarint cfg.endian (zigzagEncode n) rest (zigzagEncode_lt n) h
    have hz : zigzagDecode (zigzagEncode n) = n :=
      zigzagDecode_zigzagEncode (by norm_num; omega) (by norm_num; omega)
    have hcast : castI64toI16 (zigzagDecode (zigzagEncode n)) = Except.ok n := by
      rw [hz]
      simp only [castI64toI16, if_pos (by omega : n ≤ 32767 ∧ -32768 ≤ n)]
    refine ⟨L', ?_, by rwa [serializeVarint_length]⟩
    simp [deI16, henc, hv, hcast, Except.bind, Bind.bind]
  | fixint =>
    simp only [serializeSInt, henc] at h ⊢
    rw [writeLit_length] at h
    obtain ⟨L', hl, hs⟩ := deLit_ok cfg.endian 2 (iAsU 2 n) rest
      (by norm_num [iAsU]; omega) h
    refine ⟨L', ?_, by rwa [writeLit_length]⟩
    have hcast : uAsI 2 (iAsU 2 n) = n := by
      simp only [uAsI, iAsU]
      norm_num
      split_ifs <;> omega
    simp [deI16, henc, hl, hcast, Except.bind, Bind.bind]

theorem deI32_ok (cfg : Cfg) {L : Limit} (n : Int) (rest : List Nat)
    (hn1 : -2147483648 ≤ n) (hn2 : n < 2147483648)
    (h : LimOK L (serializeSInt cfg 4 n).length) :
    ∃ L', deI32 cfg ⟨serializeSInt cfg 4 n ++ rest, L⟩ = Except.ok (n, ⟨rest, L'⟩) ∧
      SpendLE L L' (serializeSInt cfg 4 n).length := by
  cases henc : cfg.intEnc with
  | varint =>
    simp only [serializeSInt, henc] at h ⊢
    rw [serializeVarint_length] at h
    obtain ⟨L', hv, hs⟩ :=
      deVarint_serializeVarint cfg.endian (zigzagEncode n) rest (zigzagEncode_lt n) h
    have hz : zigzagDecode (zigzagEncode n) = n :=
      zigzagDecode_zigzagEncode (by norm_num; omega) (by norm_num; omega)
    have hcast : castI64toI32 (zigzagDecode (zigzagEncode n)) = Except.ok n := by
      rw [hz]
      simp only [castI64toI32, if_pos (by omega : n ≤ 2147483647 ∧ -2147483648 ≤ n)]
    refine ⟨L', ?_, by rwa [serializeVarint_length]⟩
    simp [deI32, henc, hv, hcast, Except.bind, Bind.bind]
  | fixint =>
    simp only [serializeSInt, henc] at h ⊢
    rw [writeLit_length] at h
    obtain ⟨L', hl, hs⟩ := deLit_ok cfg.endian 4 (iAsU 4 n) rest
      (by norm_num [iAsU]; omega) h
    refine ⟨L', ?_, by rwa [writeLit_length]⟩
    have hcast : uAsI 4 (iAsU 4 n) = n := by
      simp only [uAsI, iAsU]
      norm_num
      split_ifs <;> omega
    simp [deI32, henc, hl, hcast, Except.bind, Bind.bind]

theorem deI64_ok (cfg : Cfg) {L : Limit} (n : Int) (rest : List Nat)
    (hn1 : -(2 ^ 63) ≤ n) (hn2 : n < 2 ^ 63)
    (h : LimOK L (serializeSInt cfg 8 n).length) :
    ∃ L', deI64 cfg ⟨serializeSInt cfg 8 n ++ rest, L⟩ = Except.ok (n, ⟨rest, L'⟩) ∧
      SpendLE L L' (serializeSInt cfg 8 n).length := by
  cases henc : cfg.intEnc with
  | varint =>
    simp only [serializeSInt, henc] at h ⊢
    rw [serializeVarint_length] at h
    obtain ⟨L', hv, hs⟩ :=
      deVarint_serializeVarint cfg.endian (zigzagEncode n) rest (zigzagEncode_lt n) h
    have hz : zigzagDecode (zigzagEncode n) = n :=
      zigzagDecode_zigzagEncode hn1 hn2
    refine ⟨L', ?_, by rwa [serializeVarint_length]⟩
    simp [deI64, henc, hv, hz, Except.bind, Bind.bind]
  | fixint =>
    simp only [serializeSInt, henc] at h ⊢
    rw [writeLit_length] at h
    obtain ⟨L', hl, hs⟩ := deLit_ok cfg.endian 8 (iAsU 8 n) rest
      (by norm_num [iAsU]; omega) h
    refine ⟨L', ?_, by rwa [writeLit_length]⟩
    have hcast : uAsI 8 (iAsU 8 n) = n := by
      simp only [uAsI, iAsU]
      norm_num
      split_ifs <;> omega
    simp [deI64, henc, hl, hcast, Except.bind, Bind.bind]

theorem deI128_ok (cfg : Cfg) {L : Limit} (n : Int) (rest : List Nat)
    (hn1 : -(2 ^ 127) ≤ n) (hn2 : n < 2 ^ 127)
    (h : LimOK L (serializeS128 cfg n).length) :
    ∃ L', deI128 cfg ⟨serializeS128 cfg n ++ rest, L⟩ = Except.ok (n, ⟨rest, L'⟩) ∧
      SpendLE L L' (serializeS128 cfg n).length := by
  cases henc : cfg.intEnc with
  | varint =>
    simp only [serializeS128, henc] at h ⊢
    rw [serializeVarint128_length] at h
    obtain ⟨L', hv, hs⟩ := deVarint128_serializeVarint128 cfg.endian
      (zigzag128Encode n) rest (zigzag128Encode_lt n) h
    have hz : zigzag128Decode (zigzag128Encode n) = n :=
      zigzag128Decode_zigzag128Encode hn1 hn2
    refine ⟨L', ?_, by rwa [serializeVarint128_length]⟩
    simp [deI128, henc, hv, hz, Except.bind, Bind.bind]
  | fixint =>
    simp only [serializeS128, henc] at h ⊢
    rw [writeLit_length] at h
    obtain ⟨L', hl, hs⟩ := deLit_ok cfg.endian 16 (iAsU 16 n) rest
      (by norm_num [iAsU]; omega) h
    refine ⟨L', ?_, by rwa [writeLit_length]⟩
    have hcast : uAsI 16 (iAsU 16 n) = n := by
      simp only [uAsI, iAsU]
      norm_num
      split_ifs <;> omega
    simp [deI128, henc, hl, hcast, Except.bind, Bind.bind]

/-! ### UTF-8 char round-trip -/

theorem deChar_encodeUtf8 (c : Nat) (rest : List Nat) (L : Limit)
    (h1 : c < 1114112) (h2 : c < 55296 ∨ 57344 ≤ c) :
    deChar ⟨encodeUtf8 c ++ rest, L⟩ = Except.ok (c, ⟨rest, L⟩) := by
  by_cases hc1 : c < 128
  · have henc : encodeUtf8 c = [c] := by simp [encodeUtf8, hc1]
    have hw : utf8CharWidth c = 1 := by
      unfold utf8CharWidth; split_ifs <;> omega
    rw [henc]
    simp [deChar, readerRead, hw, Except.bind, Bind.bind]
  · by_cases hc2 : c < 2048
    · have hdiv : c / 64 % 32 = c / 64 := Nat.mod_eq_of_lt (by omega)
      have henc : encodeUtf8 c = [192 + c / 64, 128 + c % 64] := by
        simp [encodeUtf8, hc1, hc2, hdiv]
      have hw : utf8CharWidth (192 + c / 64) = 2 := by
        unfold utf8CharWidth; split_ifs <;> omega
      have hdec : utf8DecodeGroup [192 + c / 64, 128 + c % 64] = some c := by
        simp only [utf8DecodeGroup]
        rw [if_pos ⟨by omega, by omega, by constructor <;> omega⟩]
        congr 1
        omega
      rw [henc]
      simp [deChar, readerRead, readerReadN, hw, hdec, Except.bind, Bind.bind]
    · by_cases hc3 : c < 65536
      · have hdiv : c / 4096 % 16 = c / 4096 := Nat.mod_eq_of_lt (by omega)
        have henc : encodeUtf8 c =
            [224 + c / 4096, 128 + c / 64 % 64, 128 + c % 64] := by
          simp [encodeUtf8, hc1, hc2, hc3, hdiv]
        have hw : utf8CharWidth (224 + c / 4096) = 3 := by
          unfold utf8CharWidth; split_ifs <;> omega
        have hdec : utf8DecodeGroup
            [224 + c / 4096, 128 + c / 64 % 64, 128 + c % 64] = some c := by
          simp only [utf8DecodeGroup]
          rw [if_pos ⟨by omega, by omega, by constructor <;> omega,
            by constructor <;> omega, by intro he; omega, by intro he; omega⟩]
          congr 1
          omega
        rw [henc]
        simp [deChar, readerRead, readerReadN, hw, hdec, Except.bind, Bind.bind]
      · have hdiv : c / 262144 % 8 = c / 262144 := Nat.mod_eq_of_lt (by omega)
        have henc : encodeUtf8 c =
            [240 + c / 262144, 128 + c / 4096 % 64, 128 + c / 64 % 64,
              128 + c % 64] := by
          simp [encodeUtf8, hc1, hc2, hc3, hdiv]
        have hw : utf8CharWidth (240 + c / 262144) = 4 := by
          unfold utf8CharWidth; split_ifs <;> omega
        have hdec : utf8DecodeGroup
            [240 + c / 262144, 128 + c / 4096 % 64, 128 + c / 64 % 64,
              128 + c % 64] = some c := by
          simp only [utf8DecodeGroup]
          rw [if_pos ⟨by omega, by omega, by constructor <;> omega,
            by constructor <;> omega, by constructor <;> omega,
            by intro he; omega, by intro he; omega⟩]
          congr 1
          omega
        rw [henc]
        simp [deChar, readerRead, readerReadN, hw, hdec, Except.bind, Bind.bind]

/-! ### The round-trip invariant (C1)

Mutual induction over the value: deserializing the serialized bytes of a
well-typed value consumes exactly those bytes, rebuilds the value, and
spends at most their count from the limit meter. -/

mutual

theorem deValue_ok (cfg : Cfg) (t : Ty) (v : Value) (rest : List Nat) (L : Limit)
    (hwt : wtValue t v = true) (hL : LimOK L (serializeValue cfg v).length) :
    ∃ L', deValue cfg t ⟨serializeValue cfg v ++ rest, L⟩ =
        Except.ok (v, ⟨rest, L'⟩) ∧
      SpendLE L L' (serializeValue cfg v).length := by
  cases t with
  | bool =>
    cases v <;> simp [wtValue, Bool.and_eq_true, decide_eq_true_eq] at hwt
    rename_i b
    cases b with
    | false =>
      obtain ⟨L', hb, hs⟩ := deByte_ok 0 rest (by simpa [serializeValue] using hL)
      refine ⟨L', ?_, by simpa [serializeValue] using hs⟩
      simp [serializeValue, deValue, hb, Except.bind, Bind.bind]
    | true =>
      obtain ⟨L', hb, hs⟩ := deByte_ok 1 rest (by simpa [serializeValue] using hL)
      refine ⟨L', ?_, by simpa [serializeValue] using hs⟩
      simp [serializeValue, deValue, hb, Except.bind, Bind.bind]
  | u8 =>
    cases v <;> simp [wtValue, Bool.and_eq_true, decide_eq_true_eq] at hwt
    rename_i n
    obtain ⟨L', hb, hs⟩ := deByte_ok n rest (by simpa [serializeValue] using hL)
    refine ⟨L', ?_, by simpa [serializeValue] using hs⟩
    simp [serializeValue, deValue, hb, Except.bind, Bind.bind]
  | i8 =>
    cases v <;> simp [wtValue, Bool.and_eq_true, decide_eq_true_eq] at hwt
    rename_i n
    obtain ⟨L', hb, hs⟩ :=
      deByte_ok (iAsU 1 n) rest (by simpa [serializeValue] using hL)
    have hcast : uAsI 1 (iAsU 1 n) = n := by
      simp only [uAsI, iAsU]
      norm_num
      split_ifs <;> omega
    refine ⟨L', ?_, by simpa [serializeValue] using hs⟩
    simp [serializeValue, deValue, hb, hcast, Except.bind, Bind.bind]
  | u16 =>
    cases v <;> simp [wtValue, Bool.and_eq_true, decide_eq_true_eq] at hwt
    rename_i n
    obtain ⟨L', hu, hs⟩ := deU16_ok cfg n rest hwt (by simpa [serializeValue] using hL)
    refine ⟨L', ?_, by simpa [serializeValue] using hs⟩
    simp [serializeValue, deValue, hu, Except.bind, Bind.bind]
  | u32 =>
    cases v <;> simp [wtValue, Bool.and_eq_true, decide_eq_true_eq] at hwt
    rename_i n
    obtain ⟨L', hu, hs⟩ := deU32_ok cfg n rest hwt (by simpa [serializeValue] using hL)
    refine ⟨L', ?_, by simpa [serializeValue] using hs⟩
    simp [serializeValue, deValue, hu, Except.bind, Bind.bind]
  | u64 =>
    cases v <;> simp [wtValue, Bool.and_eq_true, decide_eq_true_eq] at hwt
    rename_i n
    obtain ⟨L', hu, hs⟩ := deU64_ok cfg n rest hwt (by simpa [serializeValue] using hL)
    refine ⟨L', ?_, by simpa [serializeValue] using hs⟩
    simp [serializeValue, deValue, hu, Except.bind, Bind.bind]
  | u128 =>
    cases v <;> simp [wtValue, Bool.and_eq_true, decide_eq_true_eq] at hwt
    rename_i n
    obtain ⟨L', hu, hs⟩ := deU128_ok cfg n rest (by norm_num; omega)
      (by simpa [serializeValue] using hL)
    refine ⟨L', ?_, by simpa [serializeValue] using hs⟩
    simp [serializeValue, deValue, hu, Except.bind, Bind.bind]
  | i16 =>
    cases v <;> simp [wtValue, Bool.and_eq_true, decide_eq_true_eq] at hwt
    rename_i n
    obtain ⟨L', hu, hs⟩ := deI16_ok cfg n rest hwt.1 hwt.2
      (by simpa [serializeValue] using hL)
    refine ⟨L', ?_, by simpa [serializeValue] using hs⟩
    simp [serializeValue, deValue, hu, Except.bind, Bind.bind]
  | i32 =>
    cases v <;> simp [wtValue, Bool.and_eq_true, decide_eq_true_eq] at hwt
    rename_i n
    obtain ⟨L', hu, hs⟩ := deI32_ok cfg n rest hwt.1 hwt.2
      (by simpa [serializeValue] using hL)
    refine ⟨L', ?_, by simpa [serializeValue] using hs⟩
    simp [serializeValue, deValue, hu, Except.bind, Bind.bind]
  | i64 =>
    cases v <;> simp [wtValue, Bool.and_eq_true, decide_eq_true_eq] at hwt
    rename_i n
    obtain ⟨L', hu, hs⟩ := deI64_ok cfg n rest (by norm_num; omega) (by norm_num; omega)
      (by simpa [serializeValue] using hL)
    refine ⟨L', ?_, by simpa [serializeValue] using hs⟩
    simp [serializeValue, deValue, hu, Except.bind, Bind.bind]
  | i128 =>
    cases v <;> simp [wtValue, Bool.and_eq_true, decide_eq_true_eq] at hwt
    rename_i n
    obtain ⟨L', hu, hs⟩ := deI128_ok cfg n rest (by norm_num; omega) (by norm_num; omega)
      (by simpa [serializeValue] using hL)
    refine ⟨L', ?_, by simpa [serializeValue] using hs⟩
    simp [serializeValue, deValue, hu, Except.bind, Bind.bind]
  | char =>
    cases v <;> simp [wtValue, Bool.and_eq_true, decide_eq_true_eq] at hwt
    rename_i c
    have hd := deChar_encodeUtf8 c rest L hwt.1 hwt.2
    refine ⟨L, ?_, (SpendLE.zero L).widen (Nat.zero_le _)⟩
    simp [serializeValue, deValue, hd, Except.bind, Bind.bind]
  | str =>
    cases v <;> simp [wtValue, Bool.and_eq_true, decide_eq_true_eq] at hwt
    rename_i bs
    obtain ⟨hvalid, hlen⟩ := hwt
    have hLlen : LimOK L (serializeLen cfg bs.length).length :=
      hL.mono (by simp only [serializeValue, List.length_append]; omega)
    obtain ⟨L1, hl, s1⟩ := deLen_ok cfg bs.length (bs ++ rest) hlen hLlen
    have hrr := readerReadRange_append (L := L1) bs rest
    refine ⟨L1, ?_, s1.widen (by simp only [serializeValue, List.length_append]; omega)⟩
    simp [serializeValue, deValue, List.append_assoc, hl, hrr, hvalid,
      Except.bind, Bind.bind]
  | bytes =>
    cases v <;> simp [wtValue, Bool.and_eq_true, decide_eq_true_eq] at hwt
    rename_i bs
    have hLlen : LimOK L (serializeLen cfg bs.length).length :=
      hL.mono (by simp only [serializeValue, List.length_append]; omega)
    obtain ⟨L1, hl, s1⟩ := deLen_ok cfg bs.length (bs ++ rest) hwt.2 hLlen
    have hrr := readerReadRange_append (L := L1) bs rest
    refine ⟨L1, ?_, s1.widen (by simp only [serializeValue, List.length_append]; omega)⟩
    simp [serializeValue, deValue, List.append_assoc, hl, hrr,
      Except.bind, Bind.bind]
  | unit =>
    cases v <;> simp [wtValue, Bool.and_eq_true, decide_eq_true_eq] at hwt
    exact ⟨L, by simp [serializeValue, deValue], SpendLE.zero L⟩
  | option t' =>
    cases v
    all_goals try (exfalso; revert hwt; simp [wtValue]; done)
    case option o =>
    cases o with
    | none =>
      refine ⟨L, ?_,
        (SpendLE.zero L).widen (by simp [serializeValue])⟩
      simp [serializeValue, deValue, readerRead, Except.bind, Bind.bind]
    | some v' =>
      simp only [wtValue] at hwt
      have hL' : LimOK L (serializeValue cfg v').length :=
        hL.mono (by simp only [serializeValue, List.length_cons]; omega)
      obtain ⟨L', hv, hs⟩ := deValue_ok cfg t' v' rest L hwt hL'
      refine ⟨L', ?_,
        hs.widen (by simp only [serializeValue, List.length_cons]; omega)⟩
      simp [serializeValue, deValue, readerRead, hv, Except.bind, Bind.bind]
  | tuple ts =>
    cases v <;> simp only [wtValue] at hwt <;> try (exfalso; revert hwt; simp; done)
    rename_i vs
    obtain ⟨L', hlst, hs⟩ :=
      deList_ok cfg ts vs rest L hwt (by simpa [serializeValue] using hL)
    refine ⟨L', ?_, by simpa [serializeValue] using hs⟩
    simp [serializeValue, deValue, hlst, Except.bind, Bind.bind]
  | seq t' =>
    cases v <;> simp only [wtValue, Bool.and_eq_true, decide_eq_true_eq] at hwt <;>
      try (exfalso; revert hwt; simp; done)
    rename_i vs
    obtain ⟨hmany, hlen⟩ := hwt
    have hLlen : LimOK L (serializeLen cfg vs.length).length :=
      hL.mono (by simp only [serializeValue, List.length_append]; omega)
    obtain ⟨L1, hl, s1⟩ :=
      deLen_ok cfg vs.length (serializeList cfg vs ++ rest) hlen hLlen
    have hL2 : LimOK L1 (serializeList cfg vs).length :=
      s1 _ (by simpa only [serializeValue, List.length_append] using hL)
    obtain ⟨L2, hm, s2⟩ := deMany_ok cfg t' vs rest L1 hmany hL2
    refine ⟨L2, ?_, ?_⟩
    · simp [serializeValue, deValue, List.append_assoc, hl, hm,
        Except.bind, Bind.bind]
    · have := s1.trans s2
      simpa only [serializeValue, List.length_append] using this
  | map tk tv =>
    cases v <;> simp only [wtValue, Bool.and_eq_true, decide_eq_true_eq] at hwt <;>
      try (exfalso; revert hwt; simp; done)
    rename_i ps
    obtain ⟨hpairs, hlen⟩ := hwt
    have hLlen : LimOK L (serializeLen cfg ps.length).length :=
      hL.mono (by simp only [serializeValue, List.length_append]; omega)
    obtain ⟨L1, hl, s1⟩ :=
      deLen_ok cfg ps.length (serializePairs cfg ps ++ rest) hlen hLlen
    have hL2 : LimOK L1 (serializePairs cfg ps).length :=
      s1 _ (by simpa only [serializeValue, List.length_append] using hL)
    obtain ⟨L2, hm, s2⟩ := dePairs_ok cfg tk tv ps rest L1 hpairs hL2
    refine ⟨L2, ?_, ?_⟩
    · simp [serializeValue, deValue, List.append_assoc, hl, hm,
        Except.bind, Bind.bind]
    · have := s1.trans s2
      simpa only [serializeValue, List.length_append] using this
  | enum variants =>
    cases v <;> simp only [wtValue] at hwt <;> try (exfalso; revert hwt; simp; done)
    rename_i idx payload
    cases hvar : variants[idx]? with
    | none => rw [hvar] at hwt; simp at hwt
    | some ts =>
      rw [hvar] at hwt
      simp only [Bool.and_eq_true, decide_eq_true_eq] at hwt
      obtain ⟨hidx, hlist⟩ := hwt
      have hLu : LimOK L (serializeUInt cfg 4 idx).length :=
        hL.mono (by simp only [serializeValue, List.length_append]; omega)
      obtain ⟨L1, hu, s1⟩ :=
        deU32_ok cfg idx (serializeList cfg payload ++ rest) hidx hLu
      have hL2 : LimOK L1 (serializeList cfg payload).length :=
        s1 _ (by simpa only [serializeValue, List.length_append] using hL)
      obtain ⟨L2, hlst, s2⟩ := deList_ok cfg ts payload rest L1 hlist hL2
      refine ⟨L2, ?_, ?_⟩
      · simp only [serializeValue, List.append_assoc]
        simp only [deValue]
        rw [hu]
        simp only [Except.bind, Bind.bind]
        split
        · rename_i ts' heq
          rw [hvar] at heq
          injection heq with heq'
          subst heq'
          simp [hlst, Except.bind, Bind.bind]
        · rename_i heq
          rw [hvar] at heq
          cases heq
      · have := s1.trans s2
        simpa only [serializeValue, List.length_append] using this
termination_by sizeOf v

theorem deList_ok (cfg : Cfg) (ts : List Ty) (vs : List Value) (rest : List Nat)
    (L : Limit) (hwt : wtList ts vs = true)
    (hL : LimOK L (serializeList cfg vs).length) :
    ∃ L', deList cfg ts ⟨serializeList cfg vs ++ rest, L⟩ =
        Except.ok (vs, ⟨rest, L'⟩) ∧
      SpendLE L L' (serializeList cfg vs).length := by
  cases ts with
  | nil =>
    cases vs with
    | nil => exact ⟨L, by simp [serializeList, deList], SpendLE.zero L⟩
    | cons v vs => simp [wtList] at hwt
  | cons t ts =>
    cases vs with
    | nil => simp [wtList] at hwt
    | cons v vs =>
      simp only [wtList, Bool.and_eq_true] at hwt
      obtain ⟨hw1, hw2⟩ := hwt
      have hL1 : LimOK L (serializeValue cfg v).length :=
        hL.mono (by simp only [serializeList, List.length_append]; omega)
      obtain ⟨L1, h1, s1⟩ :=
        deValue_ok cfg t v (serializeList cfg vs ++ rest) L hw1 hL1
      have hL2 : LimOK L1 (serializeList cfg vs).length :=
        s1 _ (by simpa only [serializeList, List.length_append] using hL)
      obtain ⟨L2, h2, s2⟩ := deList_ok cfg ts vs rest L1 hw2 hL2
      refine ⟨L2, ?_, ?_⟩
      · simp [serializeList, deList, List.append_assoc, h1, h2,
          Except.bind, Bind.bind]
      · have := s1.trans s2
        simpa only [serializeList, List.length_append] using this
termination_by sizeOf vs

theorem deMany_ok (cfg : Cfg) (t : Ty) (vs : List Value) (rest : List Nat)
    (L : Limit) (hwt : wtMany t vs = true)
    (hL : LimOK L (serializeList cfg vs).length) :
    ∃ L', deMany cfg t vs.length ⟨serializeList cfg vs ++ rest, L⟩ =
        Except.ok (vs, ⟨rest, L'⟩) ∧
      SpendLE L L' (serializeList cfg vs).length := by
  cases vs with
  | nil => exact ⟨L, by simp [serializeList, deMany], SpendLE.zero L⟩
  | cons v vs =>
    simp only [wtMany, Bool.and_eq_true] at hwt
    obtain ⟨hw1, hw2⟩ := hwt
    have hL1 : LimOK L (serializeValue cfg v).length :=
      hL.mono (by simp only [serializeList, List.length_append]; omega)
    obtain ⟨L1, h1, s1⟩ :=
      deValue_ok cfg t v (serializeList cfg vs ++ rest) L hw1 hL1
    have hL2 : LimOK L1 (serializeList cfg vs).length :=
      s1 _ (by simpa only [serializeList, List.length_append] using hL)
    obtain ⟨L2, h2, s2⟩ := deMany_ok cfg t vs rest L1 hw2 hL2
    refine ⟨L2, ?_, ?_⟩
    · simp [serializeList, deMany, List.length_cons, List.append_assoc, h1, h2,
        Except.bind, Bind.bind]
    · have := s1.trans s2
      simpa only [serializeList, List.length_append] using this
termination_by sizeOf vs

theorem dePairs_ok (cfg : Cfg) (tk tv : Ty) :
    ∀ (ps : List (Value × Value)) (rest : List Nat) (L : Limit),
      wtPairs tk tv ps = true → LimOK L (serializePairs cfg ps).length →
      ∃ L', dePairs cfg tk tv ps.length ⟨serializePairs cfg ps ++ rest, L⟩ =
          Except.ok (ps, ⟨rest, L'⟩) ∧
        SpendLE L L' (serializePairs cfg ps).length
  | [], rest, L, hwt, hL =>
    ⟨L, by simp [serializePairs, dePairs], SpendLE.zero L⟩
  | (k, v) :: ps, rest, L, hwt, hL => by
    simp only [wtPairs, Bool.and_eq_true] at hwt
    obtain ⟨⟨hwk, hwv⟩, hwp⟩ := hwt
    have hLk : LimOK L (serializeValue cfg k).length :=
      hL.mono (by simp only [serializePairs, List.length_append]; omega)
    obtain ⟨L1, h1, s1⟩ := deValue_ok cfg tk k
      (serializeValue cfg v ++ (serializePairs cfg ps ++ rest)) L hwk hLk
    have hLv : LimOK L1 (serializeValue cfg v).length := by
      refine (s1 ((serializeValue cfg v).length + (serializePairs cfg ps).length)
        (by simpa only [serializePairs, List.length_append, Nat.add_assoc] using hL)).mono ?_
      omega
    obtain ⟨L2, h2, s2⟩ := deValue_ok cfg tv v (serializePairs cfg ps ++ rest) L1 hwv hLv
    have hLp : LimOK L2 (serializePairs cfg ps).length := by
      refine s2 _ ?_
      refine s1 _ ?_
      simpa only [serializePairs, List.length_append, Nat.add_assoc] using hL
    obtain ⟨L3, h3, s3⟩ := dePairs_ok cfg tk tv ps rest L2 hwp hLp
    refine ⟨L3, ?_, ?_⟩
    · simp [serializePairs, dePairs, List.length_cons, List.append_assoc, h1, h2, h3,
        Except.bind, Bind.bind]
    · have := s1.trans (s2.trans s3)
      simpa only [serializePairs, List.length_append, Nat.add_assoc] using this
termination_by ps => sizeOf ps

end

/-! ### Claim theorems: round-trip (C1), limit (C3), trailing (C4) -/

/-- C1 (corrected): deserializing the bytes produced by serializing a
well-typed value under the same Options returns the value — provided the
configured limit has budget for those bytes (always true for the default
`Infinite`).  The proviso is needed because the serializer never charges
the meter while the deserializer does (see the counterexample). -/
theorem roundtrip (cfg : Cfg) (t : Ty) (v : Value) (L : Limit) (bytes : List Nat)
    (hwt : wtValue t v = true)
    (hser : serialize cfg L v = Except.ok bytes)
    (hL : LimOK L bytes.length) :
    deserialize cfg t L bytes = Except.ok v := by
  have hb : bytes = serializeValue cfg v := by
    simpa [serialize] using hser.symm
  subst hb
  obtain ⟨L', hd, _⟩ := deValue_ok cfg t v [] L hwt hL
  rw [List.append_nil] at hd
  simp [deserialize, hd]

/-- C1 witness: a `u8` round-trips under a sufficient bounded limit. -/
theorem roundtrip_witness :
    deserialize defaultCfg Ty.u8 (Limit.bounded 1) [3] = Except.ok (Value.u8 3) :=
  roundtrip defaultCfg Ty.u8 (Value.u8 3) (Limit.bounded 1) [3] rfl rfl (by decide)

/-- C1 counterexample: under `with_limit(0)` serialization of a `u8`
succeeds (the serializer ignores the meter) but deserializing the very
bytes it produced fails with `LimitReached` — so round-trip does NOT
hold for every Options. -/
theorem roundtrip_counterexample :
    serialize defaultCfg (Limit.bounded 0) (Value.u8 0) = Except.ok [0] ∧
    deserialize defaultCfg Ty.u8 (Limit.bounded 0) [0] =
      Except.error (DeError.limitError LimitError.limitReached) :=
  ⟨rfl, by
    simp [deserialize, deValue, deByte, chargeLimit, Limit.add, boundedAdd,
      Except.bind, Bind.bind]⟩

/-- C3 (code bug): the limit meter does not bound the byte count of
operations.  Serializing under `with_limit(0)` writes its byte and
succeeds (the `Serializer` never consults `_options`' meter), and
deserializing a 3-byte `&str` under `with_limit(1)` succeeds because
`deserialize_str` charges only the length prefix, never the contents
read through `read_range`. -/
theorem limit_not_enforced :
    serialize defaultCfg (Limit.bounded 0) (Value.u8 7) = Except.ok [7] ∧
    deserialize defaultCfg Ty.str (Limit.bounded 1) [2, 97, 98] =
      Except.ok (Value.str [97, 98]) := by
  refine ⟨rfl, ?_⟩
  have hutf : utf8Valid [97, 98] = true := rfl
  simp [deserialize, deValue, deLen, deU64, deVarint, deByte, chargeLimit,
    Limit.add, boundedAdd, readerRead, readerReadRange, castU64toUsize,
    hutf, defaultCfg, Except.bind, Bind.bind]

/-- C4 (code bug): the trailing policy is never consulted.  A top-level
deserialize under the default `RejectTrailing` succeeds with an unread
byte remaining (shown explicitly on `deValue`) and behaves identically
under `AllowTrailing`. -/
theorem trailing_policy_ignored :
    deValue defaultCfg Ty.u8 ⟨[1, 2], Limit.infinite⟩ =
      Except.ok (Value.u8 1, ⟨[2], Limit.infinite⟩) ∧
    deserialize defaultCfg Ty.u8 Limit.infinite [1, 2] = Except.ok (Value.u8 1) ∧
    deserialize ⟨IntEnc.varint, Endi.little, Trailing.allow⟩ Ty.u8 Limit.infinite
      [1, 2] = Except.ok (Value.u8 1) := by
  refine ⟨?_, ?_, ?_⟩ <;>
    simp [deserialize, deValue, deByte, chargeLimit, Limit.add, readerRead,
      Except.bind, Bind.bind]

/-- C5 (code bug): on a missing sequence/map length the real serializer
panics through `Option::expect` while the size checker returns
`SequenceMustHaveLength`. -/
theorem seq_no_length_outcomes :
    serializerSeqHeader defaultCfg none = SOutcome.panic "Sequence has no elements" ∧
    serializerMapHeader defaultCfg none = SOutcome.panic "Sequence has no elements" ∧
    sizeCheckerSeqHeader defaultCfg none = Except.error SerError.sequenceMustHaveLength ∧
    sizeCheckerMapHeader defaultCfg none = Except.error SerError.sequenceMustHaveLength :=
  ⟨rfl, rfl, rfl, rfl⟩

end Bincode
